import Mathlib

/-!
Verification of the incremental reconciliation and scheduling engine of the
vendor-invoice-validator repository.

The Python sources are shallowly embedded: pandas cells become `PyVal`
(string / integer / missing), dataframes become `Df` (column names plus rows),
Python dicts become association lists, SQLite tables become lists of typed
rows, and the file-system snapshot store becomes an association list from file
names to sheet contents.  Stateful functions are modelled as explicit
state-passing functions; exception handlers become explicit fallback branches.
Every definition mirrors a concrete function of the source tree; the source
file and function are named in each doc comment.
-/

/-- A Python value as it appears in an invoice dict or a pandas cell:
a string, an integer, or a missing value (None / NaN / NaT). -/
inductive PyVal where
  | str (s : String)
  | int (n : Int)
  | none
deriving DecidableEq

/-- Python `str(v)` for a plain object (`str(None) = "None"`). -/
def pyStr : PyVal → String
  | .str s => s
  | .int n => toString n
  | .none => "None"

/-- pandas `astype(str)` on one cell: a missing cell (float NaN) prints as
`"nan"`; plain values print as in `pyStr`. -/
def pdCellStr : PyVal → String
  | .str s => s
  | .int n => toString n
  | .none => "nan"

/-- A Python dict, as passed to `calculate_invoice_hash` (invoice_tracker.py):
an association list from key to value.  Python dicts have unique keys. -/
abbrev Invoice : Type := List (String × PyVal)

/-- ASCII lower-casing of one character (Python `str.lower`; the data of this
system is ASCII). -/
def pyLowerChar (c : Char) : Char :=
  if 65 ≤ c.toNat ∧ c.toNat ≤ 90 then Char.ofNat (c.toNat + 32) else c

/-- Python `s.lower()`. -/
def pyLower (s : String) : String := String.mk (s.data.map pyLowerChar)

/-- ASCII upper-casing of one character (Python `str.upper`). -/
def pyUpperChar (c : Char) : Char :=
  if 97 ≤ c.toNat ∧ c.toNat ≤ 122 then Char.ofNat (c.toNat - 32) else c

/-- Python `s.upper()`. -/
def pyUpper (s : String) : String := String.mk (s.data.map pyUpperChar)

/-- The whitespace characters stripped by Python `str.strip()`. -/
def isPySpace (c : Char) : Bool :=
  c == ' ' || c == '\t' || c == '\n' || c == '\r' || c == '\x0b' || c == '\x0c'

/-- Python `s.strip()`: remove leading and trailing whitespace. -/
def pyStrip (s : String) : String :=
  String.mk (((s.data.dropWhile isPySpace).reverse.dropWhile isPySpace).reverse)

/-- Replace every occurrence of a (non-empty) pattern, scanning left to right
(fuelled recursion over the character list). -/
def pyReplaceAux (pat rep : List Char) : Nat → List Char → List Char
  | _, [] => []
  | 0, l => l
  | fuel + 1, c :: cs =>
      if pat.isPrefixOf (c :: cs) then
        rep ++ pyReplaceAux pat rep fuel ((c :: cs).drop pat.length)
      else c :: pyReplaceAux pat rep fuel cs

/-- Python `s.replace(pat, rep)` for a non-empty pattern. -/
def pyReplace (s pat rep : String) : String :=
  String.mk (pyReplaceAux pat.data rep.data s.data.length s.data)

/-- Python `invoice.get(k, d)`. -/
def Invoice.get (inv : Invoice) (k : String) (d : PyVal) : PyVal :=
  match inv.find? (fun p => p.1 == k) with
  | some p => p.2
  | Option.none => d

/-! SHA-256 (FIPS 180-4), the algorithm behind `hashlib.sha256` used by
`calculate_invoice_hash` in invoice_tracker.py.  Words are `Nat` reduced
mod 2^32. -/

/-- Truncate to a 32-bit word. -/
def w32 (x : Nat) : Nat := x % 4294967296

/-- Right rotation of a 32-bit word. -/
def rotr32 (n x : Nat) : Nat := w32 ((x >>> n) ||| (x <<< (32 - n)))

/-- Bitwise complement of a 32-bit word. -/
def not32 (x : Nat) : Nat := 4294967295 - x

/-- Binary search for the integer cube root (largest `k` with `k^3 <= n`),
with the invariant `lo^3 <= n < hi^3`. -/
def icbrtGo (n : Nat) : Nat → Nat → Nat → Nat
  | 0, lo, _ => lo
  | fuel + 1, lo, hi =>
      let mid := (lo + hi) / 2
      if mid = lo then lo
      else if mid * mid * mid ≤ n then icbrtGo n fuel mid hi
      else icbrtGo n fuel lo mid

/-- Integer cube root. -/
def icbrt (n : Nat) : Nat := icbrtGo n (n + 2) 0 (n + 1)

/-- The first `n` primes. -/
def firstPrimes (n : Nat) : List Nat :=
  ((List.range (16 * n + 16)).filter (fun p => decide (Nat.Prime p))).take n

/-- SHA-256 round constants: the first 32 bits of the fractional parts of
the cube roots of the first 64 primes. -/
def sha256K : List Nat :=
  (firstPrimes 64).map (fun p => icbrt (p <<< 96) % 4294967296)

/-- SHA-256 initial hash value: the first 32 bits of the fractional parts
of the square roots of the first 8 primes. -/
def sha256H0 : List Nat :=
  (firstPrimes 8).map (fun p => Nat.sqrt (p <<< 64) % 4294967296)

/-- Big-endian byte list (length `n`) of a value. -/
def beBytes (n v : Nat) : List Nat :=
  (List.range n).map (fun i => (v >>> (8 * (n - 1 - i))) % 256)

/-- SHA-256 message padding: append 0x80, zeros to 56 mod 64, then the
64-bit big-endian bit length. -/
def sha256pad (msg : List Nat) : List Nat :=
  let L := msg.length
  let zeros := (64 + 56 - (L + 1) % 64) % 64
  msg ++ [0x80] ++ List.replicate zeros 0 ++ beBytes 8 (8 * L)

/-- Group a byte list into 32-bit big-endian words. -/
def bytesToWords : List Nat → List Nat
  | b0 :: b1 :: b2 :: b3 :: rest =>
      (b0 <<< 24 ||| b1 <<< 16 ||| b2 <<< 8 ||| b3) :: bytesToWords rest
  | _ => []

/-- Split a list into chunks of 64 elements (fuelled recursion). -/
def chunks64Aux {α : Type} : Nat → List α → List (List α)
  | 0, _ => []
  | _, [] => []
  | fuel + 1, l => l.take 64 :: chunks64Aux fuel (l.drop 64)

/-- Split a list into chunks of 64 elements. -/
def chunks64 {α : Type} (l : List α) : List (List α) := chunks64Aux l.length l

/-- SHA-256 message schedule: extend 16 words to 64. -/
def sha256schedule (ws : List Nat) : List Nat :=
  (List.range 48).foldl
    (fun a i =>
      let j := i + 16
      let s0 :=
        (rotr32 7 (a.getD (j - 15) 0)).xor
          ((rotr32 18 (a.getD (j - 15) 0)).xor ((a.getD (j - 15) 0) >>> 3))
      let s1 :=
        (rotr32 17 (a.getD (j - 2) 0)).xor
          ((rotr32 19 (a.getD (j - 2) 0)).xor ((a.getD (j - 2) 0) >>> 10))
      a ++ [w32 (a.getD (j - 16) 0 + s0 + a.getD (j - 7) 0 + s1)])
    ws

/-- One SHA-256 compression round. -/
def sha256round (w k : Nat) (st : List Nat) : List Nat :=
  let a := st.getD 0 0
  let b := st.getD 1 0
  let c := st.getD 2 0
  let d := st.getD 3 0
  let e := st.getD 4 0
  let f := st.getD 5 0
  let g := st.getD 6 0
  let h := st.getD 7 0
  let S1 := (rotr32 6 e).xor ((rotr32 11 e).xor (rotr32 25 e))
  let ch := (e.land f).xor ((not32 e).land g)
  let t1 := w32 (h + S1 + ch + k + w)
  let S0 := (rotr32 2 a).xor ((rotr32 13 a).xor (rotr32 22 a))
  let maj := (a.land b).xor ((a.land c).xor (b.land c))
  let t2 := w32 (S0 + maj)
  [w32 (t1 + t2), a, b, c, w32 (d + t1), e, f, g]

/-- SHA-256 compression of one 64-byte block into the running hash. -/
def sha256compress (h : List Nat) (block : List Nat) : List Nat :=
  let ws := sha256schedule (bytesToWords block)
  let st := (List.range 64).foldl
    (fun st i => sha256round (ws.getD i 0) (sha256K.getD i 0) st) h
  (List.range 8).map (fun i => w32 (h.getD i 0 + st.getD i 0))

/-- SHA-256 digest (eight 32-bit words) of a byte list. -/
def sha256 (msg : List Nat) : List Nat :=
  (chunks64 (sha256pad msg)).foldl sha256compress sha256H0

/-- Lower-case hex digit. -/
def hexDigit (n : Nat) : Char :=
  if n < 10 then Char.ofNat (48 + n) else Char.ofNat (87 + n)

/-- Eight-digit lower-case hex rendering of a 32-bit word. -/
def hex8 (v : Nat) : String :=
  String.mk ((List.range 8).map (fun i => hexDigit ((v >>> (4 * (7 - i))) % 16)))

/-- UTF-8 encoding of one character. -/
def utf8EncodeChar (c : Char) : List Nat :=
  let v := c.toNat
  if v < 0x80 then [v]
  else if v < 0x800 then [0xC0 + v / 64, 0x80 + v % 64]
  else if v < 0x10000 then [0xE0 + v / 4096, 0x80 + (v / 64) % 64, 0x80 + v % 64]
  else [0xF0 + v / 262144, 0x80 + (v / 4096) % 64, 0x80 + (v / 64) % 64, 0x80 + v % 64]

/-- UTF-8 byte list of a string (Python `s.encode()`). -/
def utf8Bytes (s : String) : List Nat :=
  s.data.foldr (fun c acc => utf8EncodeChar c ++ acc) []

/-- Hex digest of `hashlib.sha256(s.encode()).hexdigest()`. -/
def sha256hexdigest (s : String) : String :=
  String.join ((sha256 (utf8Bytes s)).map hex8)

/-- The tracked fields of `calculate_invoice_hash` (invoice_tracker.py
lines 152-161), with the defaults used by `invoice.get`. -/
def trackedFieldDefaults : List (String × PyVal) :=
  [("invoice_no", .str ""), ("vendor_name", .str ""), ("invoice_date", .str ""),
   ("gstin", .str ""), ("pan", .str ""), ("hsn_code", .str ""),
   ("taxable_value", .int 0), ("total_amount", .int 0)]

/-- The `key_fields` list of `calculate_invoice_hash`: the raw `str(...)`
representation of each tracked field. -/
def hashKeyFields (inv : Invoice) : List String :=
  trackedFieldDefaults.map (fun kd => pyStr (Invoice.get inv kd.1 kd.2))

/-- The `joined = "|".join(key_fields)` string of `calculate_invoice_hash`. -/
def hashJoined (inv : Invoice) : String :=
  String.intercalate "|" (hashKeyFields inv)

/-- `calculate_invoice_hash` (invoice_tracker.py lines 151-163):
`hashlib.sha256(joined.encode()).hexdigest()`. -/
def calculate_invoice_hash (inv : Invoice) : String :=
  sha256hexdigest (hashJoined inv)

/-- Modelled from the spec (for comparison with the code): one field value
after the normalization the Fingerprint Engine contract describes — values
trimmed and case-normalized, null and empty string treated identically,
numbers at fixed precision. -/
def specNormalizeField : PyVal → String
  | .str s => pyLower (pyStrip s)
  | .int n => toString n
  | .none => ""

/-- Modelled from the spec (for comparison with the code): field-wise equality
of two records after normalization, over the tracked fields. -/
def specNormFieldwiseEq (a b : Invoice) : Bool :=
  trackedFieldDefaults.all
    (fun kd => specNormalizeField (Invoice.get a kd.1 kd.2)
        == specNormalizeField (Invoice.get b kd.1 kd.2))

/-- First record of the fingerprint collision pair: `invoice_no = "a"`,
`vendor_name = "b|c"`. -/
def exC1a : Invoice := [("invoice_no", .str "a"), ("vendor_name", .str "b|c")]

/-- Second record of the fingerprint collision pair: `invoice_no = "a|b"`,
`vendor_name = "c"`. -/
def exC1b : Invoice := [("invoice_no", .str "a|b"), ("vendor_name", .str "c")]

/-! Lemmas: `Invoice.get` only depends on the underlying key-value set when
keys are unique, so the fingerprint is independent of column order. -/

/-- With pairwise-distinct keys, `find?` locates the unique entry with key
`k`, wherever it sits in the list. -/
theorem find?_eq_some_of_mem_nodupkeys :
    ∀ {l : Invoice} {q : String × PyVal} {k : String},
      (l.map Prod.fst).Nodup → q ∈ l → q.1 = k →
      l.find? (fun p => p.1 == k) = some q := by
  intro l
  induction l with
  | nil => intro q k _ hq _; cases hq
  | cons x t ih =>
      intro q k hnd hq hk
      rw [List.map_cons, List.nodup_cons] at hnd
      by_cases hx : ((fun p => p.1 == k) x) = true
      · rw [List.find?_cons_of_pos (p := fun r : String × PyVal => r.1 == k) _ hx]
        rcases List.mem_cons.mp hq with h | h
        · rw [h]
        · exfalso
          apply hnd.1
          have hxq : x.1 = q.1 := by
            have hx' : x.1 = k := beq_iff_eq.mp hx
            rw [hx', hk]
          rw [hxq]
          exact List.mem_map.mpr ⟨q, h, rfl⟩
      · rw [List.find?_cons_of_neg (p := fun r : String × PyVal => r.1 == k) _ hx]
        have hqx : q ≠ x := by
          intro h
          apply hx
          rw [← h]
          exact beq_iff_eq.mpr hk
        rcases List.mem_cons.mp hq with h | h
        · exact absurd h hqx
        · exact ih hnd.2 h hk

/-- `Invoice.get` is invariant under permutation of an invoice with
pairwise-distinct keys. -/
theorem Invoice.get_perm {l₁ l₂ : Invoice}
    (hnd : (l₁.map Prod.fst).Nodup) (hp : l₁.Perm l₂) (k : String) (d : PyVal) :
    Invoice.get l₂ k d = Invoice.get l₁ k d := by
  unfold Invoice.get
  cases h : l₁.find? (fun p => p.1 == k) with
  | none =>
      have hall := List.find?_eq_none.mp h
      have : l₂.find? (fun p => p.1 == k) = Option.none :=
        List.find?_eq_none.mpr (fun x hx => hall x (hp.mem_iff.mpr hx))
      rw [this]
  | some q =>
      have hq₁ : q ∈ l₁ := List.mem_of_find?_eq_some h
      have hq' : ((fun p => p.1 == k) q) = true := List.find?_some (p := fun r : String × PyVal => r.1 == k) h
      have hqk : q.1 = k := beq_iff_eq.mp hq'
      have hnd₂ : (l₂.map Prod.fst).Nodup := ((hp.map Prod.fst).nodup_iff).mp hnd
      rw [find?_eq_some_of_mem_nodupkeys hnd₂ (hp.mem_iff.mp hq₁) hqk]

/-- C1 (amended).  The fingerprint depends only on the raw string
representations of the eight tracked fields, so it is independent of the
original column order of the record: permuting the columns of a record with
pairwise-distinct keys leaves `calculate_invoice_hash` unchanged.  (The
converse of the spec contract fails: see the counterexample — the code
applies no normalization and the pipe-joined encoding is not injective.) -/
theorem c1_hash_column_order_independent (R S : Invoice)
    (hk : (R.map Prod.fst).Nodup) (hp : S.Perm R) :
    calculate_invoice_hash S = calculate_invoice_hash R := by
  show sha256hexdigest (hashJoined S) = sha256hexdigest (hashJoined R)
  apply congrArg
  unfold hashJoined hashKeyFields
  apply congrArg
  apply List.map_congr_left
  intro kd _
  rw [Invoice.get_perm hk hp.symm]

/-- C1 counterexample.  The two concrete records `exC1a` and `exC1b` differ
on the tracked field `invoice_no` even after the spec's normalization, yet
their pipe-joined encodings — and hence their SHA-256 fingerprints — are
identical ("a" | "b|c" and "a|b" | "c" both join to "a|b|c").  This refutes
the claimed equivalence of hash equality and normalized field-wise
equality. -/
theorem c1_counterexample :
    calculate_invoice_hash exC1a = calculate_invoice_hash exC1b ∧
    specNormFieldwiseEq exC1a exC1b = false := by
  constructor
  · show sha256hexdigest (hashJoined exC1a) = sha256hexdigest (hashJoined exC1b)
    exact congrArg sha256hexdigest (by decide)
  · decide

/-- A two-column invoice record used to witness `c1_hash_column_order_independent`. -/
def exC1w : Invoice := [("invoice_no", .str "X"), ("vendor_name", .str "Y")]

/-- The same record with its columns listed in the opposite order. -/
def exC1wPerm : Invoice := [("vendor_name", .str "Y"), ("invoice_no", .str "X")]

/-- Witness for C1: the amended theorem applied at a concrete record and a
concrete reordering of it. -/
theorem c1_witness :
    ((exC1w.map Prod.fst).Nodup ∧ exC1wPerm.Perm exC1w) ∧
    calculate_invoice_hash exC1wPerm = calculate_invoice_hash exC1w :=
  ⟨⟨by decide, by decide⟩,
   c1_hash_column_order_independent exC1w exC1wPerm (by decide) (by decide)⟩

/-! The dataframe model.  A pandas DataFrame becomes a list of column names
plus a list of rows (one cell list per row, positionally aligned with the
columns).  The row position doubles as the pandas RangeIndex, which is what
`.index.tolist()` and `.iloc` use in snapshot_handler.py. -/

/-- A raw dataframe (cells may be strings, numbers or missing). -/
structure Df where
  cols : List String
  rows : List (List PyVal)
deriving DecidableEq

/-- pandas `df.empty`: true when either axis has length zero. -/
def Df.isEmptyDf (df : Df) : Bool := df.rows.isEmpty || df.cols.isEmpty

/-- Cell of a row under a named column (missing column or ragged row reads
as a missing value; frames built by the pipeline are rectangular). -/
def Df.cellAt (df : Df) (r : List PyVal) (c : String) : PyVal :=
  match df.cols.findIdx? (fun x => x == c) with
  | some i => r.getD i PyVal.none
  | Option.none => PyVal.none

/-- The values of column `c`, top to bottom (`df[c]`). -/
def Df.column (df : Df) (c : String) : List PyVal :=
  df.rows.map (fun r => df.cellAt r c)

/-- pandas `series.nunique()`: number of distinct non-null values. -/
def nuniqueCol (xs : List PyVal) : Nat :=
  ((xs.filter (fun v => v != PyVal.none)).dedup).length

/-- `len(series.dropna())`: number of non-null values. -/
def nonNullCount (xs : List PyVal) : Nat :=
  (xs.filter (fun v => v != PyVal.none)).length

/-- The ordered candidate list of `determine_primary_key`
(snapshot_handler.py lines 185-192). -/
def potentialKeys (preferred : String) : List String :=
  [preferred, "InvID", "Invoice_No", "PurchaseInvNo", "VoucherNo", "Voucher_No"]

/-- The acceptance test of one candidate inside `determine_primary_key`
(lines 195-201): present in both frames, a positive non-null count, and
`current_unique / current_total > 0.8` — evaluated exactly as
`4 * total < 5 * unique` (for the list sizes at hand the IEEE comparison
against the float literal 0.8 agrees with the exact rational one). -/
def pkQualifies (df prev : Df) (k : String) : Bool :=
  decide (k ∈ df.cols) && decide (k ∈ prev.cols) &&
    (let u := nuniqueCol (df.column k)
     let t := nonNullCount (df.column k)
     decide (0 < t) && decide (4 * t < 5 * u))

/-- `determine_primary_key` (snapshot_handler.py lines 181-203): the first
candidate that qualifies, else none. -/
def determine_primary_key (df prev : Df) (preferred : String) : Option String :=
  (potentialKeys preferred).find? (pkQualifies df prev)

/-- One cell of `clean_dataframe_for_comparison` (lines 205-215):
`astype(str)`, `.str.strip()`, then replace a whole value of
`'nan'`/`'None'`/`'NaT'` by the empty string. -/
def cleanCell (v : PyVal) : String :=
  let s := pyStrip (pdCellStr v)
  if s = "nan" ∨ s = "None" ∨ s = "NaT" then "" else s

/-- A cleaned dataframe: every cell a string. -/
structure CDf where
  cols : List String
  rows : List (List String)
deriving DecidableEq

/-- `clean_dataframe_for_comparison` applied to a whole frame. -/
def cleanDf (df : Df) : CDf :=
  ⟨df.cols, df.rows.map (fun r => r.map cleanCell)⟩

/-- Cell of a cleaned row under a named column, defaulting to `""`
(the `.get(col, '')` of `perform_detailed_comparison`). -/
def CDf.cellAt (df : CDf) (r : List String) (c : String) : String :=
  match df.cols.findIdx? (fun x => x == c) with
  | some i => r.getD i ""
  | Option.none => ""

/-- The primary-key column of a cleaned frame (`df[primary_key]`). -/
def keyVals (df : CDf) (pk : String) : List String :=
  df.rows.map (fun r => df.cellAt r pk)

/-- Positions at which a predicate holds, in order — pandas
`df[mask].index.tolist()` for a boolean mask over a RangeIndex. -/
def maskIdxFrom (p : String → Bool) : Nat → List String → List Nat
  | _, [] => []
  | n, v :: vs =>
      if p v then n :: maskIdxFrom p (n + 1) vs else maskIdxFrom p (n + 1) vs

/-- `maskIdxFrom` starting at position 0. -/
def maskIdx (vals : List String) (p : String → Bool) : List Nat :=
  maskIdxFrom p 0 vals

/-- First row whose key column equals `rid`
(`df[df[pk] == rid].iloc[0]`). -/
def rowOf? (df : CDf) (pk rid : String) : Option (List String) :=
  df.rows.find? (fun r => df.cellAt r pk == rid)

/-- The `has_changes` loop of `perform_detailed_comparison` (lines 255-260):
some comparison column (all current columns except the key) differs between
the two records. -/
def rowChanged (cur prev : CDf) (pk : String) (rc rp : List String) : Bool :=
  (cur.cols.filter (fun c => c != pk)).any
    (fun c => cur.cellAt rc c != prev.cellAt rp c)

/-- The four index partitions returned by `perform_detailed_comparison`. -/
structure CompIdx where
  added : List Nat
  modified : List Nat
  deleted : List Nat
  unchanged : List Nat
deriving DecidableEq

/-- One iteration of the `for record_id in common_ids` loop of
`perform_detailed_comparison` (lines 237-269): skip the empty key, locate the
first current and previous row with that key, and extend the modified or the
unchanged indices with all current rows carrying the key. -/
def commonStep (cur prev : CDf) (pk : String) (curKeys : List String)
    (acc : List Nat × List Nat) (rid : String) : List Nat × List Nat :=
  if rid = "" then acc
  else
    match rowOf? cur pk rid, rowOf? prev pk rid with
    | some rc, some rp =>
        if rowChanged cur prev pk rc rp then
          (acc.1 ++ maskIdx curKeys (fun v => v == rid), acc.2)
        else
          (acc.1, acc.2 ++ maskIdx curKeys (fun v => v == rid))
    | _, _ => acc

/-- `perform_detailed_comparison` (snapshot_handler.py lines 217-285) on
cleaned frames.  The id sets come from the key columns (post-cleaning these
hold no NaN, so `dropna()` is the identity); Python set iteration is modelled
in first-occurrence order (only the resulting index multisets are consumed).
The `except` fallback of lines 278-285 — everything added — is taken when the
key column is absent from either frame, the one way the `try` body can
raise. -/
def perform_detailed_comparison (cur prev : CDf) (pk : String) : CompIdx :=
  if pk ∈ cur.cols ∧ pk ∈ prev.cols then
    let curKeys := keyVals cur pk
    let prevKeys := keyVals prev pk
    let curIds := curKeys.dedup
    let prevIds := prevKeys.dedup
    let addedIds := curIds.filter (fun k => decide (k ∉ prevIds))
    let deletedIds := prevIds.filter (fun k => decide (k ∉ curIds))
    let commonIds := curIds.filter (fun k => decide (k ∈ prevIds))
    let mu := commonIds.foldl (commonStep cur prev pk curKeys) ([], [])
    ⟨maskIdx curKeys (fun k => decide (k ∈ addedIds)), mu.1,
     maskIdx prevKeys (fun k => decide (k ∈ deletedIds)), mu.2⟩
  else
    ⟨List.range cur.rows.length, [], [], []⟩

/-- `df.iloc[indices]` for a list of positions. -/
def selectRows (rows : List (List PyVal)) (idxs : List Nat) : List (List PyVal) :=
  idxs.filterMap (fun i => rows[i]?)

/-- The value returned by `compare_with_snapshot`: three frames plus the
four statistics counters. -/
structure CompareResult where
  addedDf : Df
  modifiedDf : Df
  deletedDf : Df
  statsAdded : Nat
  statsModified : Nat
  statsDeleted : Nat
  statsUnchanged : Nat
deriving DecidableEq

/-- `pd.DataFrame()`. -/
def emptyDf : Df := ⟨[], []⟩

/-- `map_comparison_to_original` (snapshot_handler.py lines 287-308): slice
the original frames by the computed indices (an empty index list yields an
empty frame), and report the index-list lengths as statistics.
`reset_index(drop=True)` renumbers rows, a no-op for a list of rows. -/
def map_comparison_to_original (cur prev : Df) (c : CompIdx) : CompareResult :=
  ⟨(if c.added.isEmpty then emptyDf else ⟨cur.cols, selectRows cur.rows c.added⟩),
   (if c.modified.isEmpty then emptyDf else ⟨cur.cols, selectRows cur.rows c.modified⟩),
   (if c.deleted.isEmpty then emptyDf else ⟨prev.cols, selectRows prev.rows c.deleted⟩),
   c.added.length, c.modified.length, c.deleted.length, c.unchanged.length⟩

/-- The all-added result of `compare_with_snapshot` (no previous snapshot,
unreadable snapshot, empty previous frame, no usable key, no common
columns): `added = df.copy()`, empty modified and deleted frames,
`stats.added = len(df)`. -/
def allAddedResult (df : Df) : CompareResult :=
  ⟨df, emptyDf, emptyDf, df.rows.length, 0, 0, 0⟩

/-- The all-empty result of `compare_with_snapshot` for a missing or empty
current frame. -/
def allEmptyResult : CompareResult :=
  ⟨emptyDf, emptyDf, emptyDf, 0, 0, 0, 0⟩

/-- The environment `compare_with_snapshot` finds on disk: no previous
snapshot file, a file `pd.read_excel` fails on, or a loaded frame. -/
inductive PrevOutcome where
  | noSnapshot
  | unreadable
  | loaded (prev : Df)

/-- `df[common_columns]`: the frame restricted to the given columns. -/
def Df.restrict (df : Df) (cs : List String) : Df :=
  ⟨cs, df.rows.map (fun r => cs.map (fun c => df.cellAt r c))⟩

/-- `compare_with_snapshot` (snapshot_handler.py lines 15-144), with the
file-system interaction (`find_latest_snapshot` + `pd.read_excel`) passed in
as a `PrevOutcome`.  The common-column intersection is a Python set; it is
modelled in first-frame order (the comparison consults columns by name, so
the order never influences the result). -/
def compare_with_snapshot (dfOpt : Option Df) (prevOut : PrevOutcome)
    (pk : String) : CompareResult :=
  match dfOpt with
  | Option.none => allEmptyResult
  | some df =>
    if df.isEmptyDf then allEmptyResult
    else
      match prevOut with
      | .noSnapshot => allAddedResult df
      | .unreadable => allAddedResult df
      | .loaded prevDf =>
        if prevDf.isEmptyDf then allAddedResult df
        else
          match determine_primary_key df prevDf pk with
          | Option.none => allAddedResult df
          | some key =>
            let commonCols := df.cols.filter (fun c => decide (c ∈ prevDf.cols))
            if commonCols.isEmpty then allAddedResult df
            else
              let dfClean := cleanDf (df.restrict commonCols)
              let prevClean := cleanDf (prevDf.restrict commonCols)
              map_comparison_to_original df prevDf
                (perform_detailed_comparison dfClean prevClean key)

/-- The `except` return of `compare_with_snapshot` (lines 137-144):
`added = df.copy()` when the frame is present and non-empty, with
`stats.added = len(df)` whenever the frame is present. -/
def errorPathResult (dfOpt : Option Df) : CompareResult :=
  match dfOpt with
  | Option.none => ⟨emptyDf, emptyDf, emptyDf, 0, 0, 0, 0⟩
  | some df =>
      ⟨(if df.isEmptyDf then emptyDf else df), emptyDf, emptyDf,
       df.rows.length, 0, 0, 0⟩

/-! Generic list lemmas used by the reconciliation proofs. -/

/-- A successful `find?` splits its list at the found element, with the
prefix failing the predicate. -/
theorem find?_some_split {α : Type} (p : α → Bool) :
    ∀ (l : List α) (a : α), l.find? p = some a →
      p a = true ∧ ∃ l₁ l₂, l = l₁ ++ a :: l₂ ∧ ∀ x ∈ l₁, p x = false := by
  intro l
  induction l with
  | nil => intro a h; cases h
  | cons x t ih =>
      intro a h
      by_cases hx : p x = true
      · rw [List.find?_cons_of_pos _ hx] at h
        cases h
        exact ⟨hx, [], t, rfl, by intro y hy; cases hy⟩
      · rw [List.find?_cons_of_neg _ (by simpa using hx)] at h
        obtain ⟨hpa, l₁, l₂, hsplit, hfail⟩ := ih a h
        refine ⟨hpa, x :: l₁, l₂, by rw [hsplit, List.cons_append], ?_⟩
        intro y hy
        rcases List.mem_cons.mp hy with h | h
        · rw [h]; simpa using hx
        · exact hfail y h

/-- Splitting a list by a predicate preserves its length. -/
theorem length_filter_add_length_filter_not {α : Type} (l : List α) (p : α → Bool) :
    (l.filter p).length + (l.filter (fun a => !(p a))).length = l.length := by
  induction l with
  | nil => rfl
  | cons x t ih =>
      by_cases hx : p x = true
      · simp [List.filter_cons, hx]
        omega
      · have hx' : p x = false := by simpa using hx
        simp [List.filter_cons, hx']
        omega

/-- For duplicate-free lists, the intersection counted from either side has
the same size. -/
theorem length_filter_mem_comm {l₁ l₂ : List String}
    (h₁ : l₁.Nodup) (h₂ : l₂.Nodup) :
    (l₁.filter (fun a => decide (a ∈ l₂))).length
      = (l₂.filter (fun a => decide (a ∈ l₁))).length := by
  have e₁ : (l₁.filter (fun a => decide (a ∈ l₂))).toFinset
      = l₁.toFinset ∩ l₂.toFinset := by
    ext a
    simp [List.mem_filter]
  have e₂ : (l₂.filter (fun a => decide (a ∈ l₁))).toFinset
      = l₂.toFinset ∩ l₁.toFinset := by
    ext a
    simp [List.mem_filter]
  have c₁ := List.toFinset_card_of_nodup (h₁.filter (fun a => decide (a ∈ l₂)))
  have c₂ := List.toFinset_card_of_nodup (h₂.filter (fun a => decide (a ∈ l₁)))
  rw [← c₁, ← c₂, e₁, e₂, Finset.inter_comm]

/-- Membership in `maskIdxFrom`: exactly the shifted positions whose value
satisfies the predicate. -/
theorem maskIdxFrom_mem (p : String → Bool) :
    ∀ (vals : List String) (n i : Nat),
      i ∈ maskIdxFrom p n vals
        ↔ ∃ j, j < vals.length ∧ i = n + j ∧ p (vals.getD j "") = true := by
  intro vals
  induction vals with
  | nil =>
      intro n i
      simp [maskIdxFrom]
  | cons v vs ih =>
      intro n i
      constructor
      · intro h
        by_cases hv : p v = true
        · rw [maskIdxFrom, if_pos hv] at h
          rcases List.mem_cons.mp h with h | h
          · exact ⟨0, by simp, by omega, by simpa using hv⟩
          · obtain ⟨j, hj, hij, hpj⟩ := (ih (n + 1) i).mp h
            exact ⟨j + 1, by simpa using hj, by omega, by simpa using hpj⟩
        · rw [maskIdxFrom, if_neg hv] at h
          obtain ⟨j, hj, hij, hpj⟩ := (ih (n + 1) i).mp h
          exact ⟨j + 1, by simpa using hj, by omega, by simpa using hpj⟩
      · rintro ⟨j, hj, hij, hpj⟩
        cases j with
        | zero =>
            have hv : p v = true := by simpa using hpj
            rw [maskIdxFrom, if_pos hv]
            exact List.mem_cons.mpr (Or.inl (by omega))
        | succ j' =>
            have hj' : j' < vs.length := by
              simp only [List.length_cons] at hj
              omega
            have hrec : i ∈ maskIdxFrom p (n + 1) vs :=
              (ih (n + 1) i).mpr ⟨j', hj', by omega, by simpa using hpj⟩
            by_cases hv : p v = true
            · rw [maskIdxFrom, if_pos hv]
              exact List.mem_cons.mpr (Or.inr hrec)
            · rw [maskIdxFrom, if_neg hv]
              exact hrec

/-- Membership in `maskIdx`: the in-range positions whose value satisfies
the predicate. -/
theorem maskIdx_mem (vals : List String) (p : String → Bool) (i : Nat) :
    i ∈ maskIdx vals p ↔ i < vals.length ∧ p (vals.getD i "") = true := by
  rw [maskIdx, maskIdxFrom_mem]
  constructor
  · rintro ⟨j, hj, hij, hpj⟩
    have : i = j := by omega
    exact ⟨this ▸ hj, this ▸ hpj⟩
  · rintro ⟨hi, hp⟩
    exact ⟨i, hi, by omega, hp⟩

/-- `maskIdxFrom` selects as many positions as the filtered value list. -/
theorem maskIdxFrom_length (p : String → Bool) :
    ∀ (vals : List String) (n : Nat),
      (maskIdxFrom p n vals).length = (vals.filter p).length := by
  intro vals
  induction vals with
  | nil => intro n; rfl
  | cons v vs ih =>
      intro n
      by_cases hv : p v = true
      · rw [maskIdxFrom, if_pos hv]
        simp [List.filter_cons, hv, ih]
      · have hv' : p v = false := by simpa using hv
        rw [maskIdxFrom, if_neg hv]
        simp [List.filter_cons, hv', ih]

/-- `maskIdx` selects as many positions as the filtered value list. -/
theorem maskIdx_length (vals : List String) (p : String → Bool) :
    (maskIdx vals p).length = (vals.filter p).length :=
  maskIdxFrom_length p vals 0

/-- `iloc` over in-range positions returns one row per position. -/
theorem selectRows_length :
    ∀ (idxs : List Nat) (rows : List (List PyVal)),
      (∀ i ∈ idxs, i < rows.length) →
      (selectRows rows idxs).length = idxs.length := by
  intro idxs
  induction idxs with
  | nil => intro rows _; rfl
  | cons i t ih =>
      intro rows h
      have hi : i < rows.length := h i (List.mem_cons_self i t)
      have : rows[i]? = some rows[i] := List.getElem?_eq_getElem hi
      simp only [selectRows, List.filterMap_cons, this, List.length_cons]
      have := ih rows (fun j hj => h j (List.mem_cons_of_mem i hj))
      simpa [selectRows] using this

/-! Structure of the `common_ids` loop. -/

/-- One loop iteration either leaves the accumulator unchanged or, for a
non-empty key, appends the current-frame row positions carrying that key to
exactly one side. -/
theorem commonStep_shape (cur prev : CDf) (pk : String) (curKeys : List String)
    (acc : List Nat × List Nat) (rid : String) :
    commonStep cur prev pk curKeys acc rid = acc ∨
      (rid ≠ "" ∧
        (commonStep cur prev pk curKeys acc rid
            = (acc.1 ++ maskIdx curKeys (fun v => v == rid), acc.2) ∨
         commonStep cur prev pk curKeys acc rid
            = (acc.1, acc.2 ++ maskIdx curKeys (fun v => v == rid)))) := by
  unfold commonStep
  by_cases h0 : rid = ""
  · rw [if_pos h0]
    exact Or.inl rfl
  · rw [if_neg h0]
    cases hc : rowOf? cur pk rid with
    | none => exact Or.inl rfl
    | some rc =>
        cases hp : rowOf? prev pk rid with
        | none => exact Or.inl rfl
        | some rp =>
            dsimp only
            by_cases hch : rowChanged cur prev pk rc rp = true
            · rw [if_pos hch]
              exact Or.inr ⟨h0, Or.inl rfl⟩
            · rw [if_neg hch]
              exact Or.inr ⟨h0, Or.inr rfl⟩

/-- Every position accumulated by the loop stems from the initial
accumulator or from the row positions of some non-empty processed key. -/
theorem commonFold_mem (cur prev : CDf) (pk : String) (curKeys : List String) :
    ∀ (L : List String) (m u : List Nat) (i : Nat),
      ((i ∈ (L.foldl (commonStep cur prev pk curKeys) (m, u)).1 →
          i ∈ m ∨ ∃ rid, rid ∈ L ∧ rid ≠ "" ∧ i ∈ maskIdx curKeys (fun v => v == rid)) ∧
       (i ∈ (L.foldl (commonStep cur prev pk curKeys) (m, u)).2 →
          i ∈ u ∨ ∃ rid, rid ∈ L ∧ rid ≠ "" ∧ i ∈ maskIdx curKeys (fun v => v == rid))) := by
  intro L
  induction L with
  | nil =>
      intro m u i
      constructor
      · intro h; exact Or.inl h
      · intro h; exact Or.inl h
  | cons rid₀ t ih =>
      intro m u i
      have hstep := commonStep_shape cur prev pk curKeys (m, u) rid₀
      constructor
      · intro h
        rw [List.foldl_cons] at h
        rcases hstep with he | ⟨hne, he | he⟩
        · rw [he] at h
          rcases (ih m u i).1 h with h | ⟨rid, hmem, hr, hi⟩
          · exact Or.inl h
          · exact Or.inr ⟨rid, List.mem_cons_of_mem _ hmem, hr, hi⟩
        · rw [he] at h
          rcases (ih _ _ i).1 h with h | ⟨rid, hmem, hr, hi⟩
          · rcases List.mem_append.mp h with h | h
            · exact Or.inl h
            · exact Or.inr ⟨rid₀, List.mem_cons_self _ _, hne, h⟩
          · exact Or.inr ⟨rid, List.mem_cons_of_mem _ hmem, hr, hi⟩
        · rw [he] at h
          rcases (ih _ _ i).1 h with h | ⟨rid, hmem, hr, hi⟩
          · exact Or.inl h
          · exact Or.inr ⟨rid, List.mem_cons_of_mem _ hmem, hr, hi⟩
      · intro h
        rw [List.foldl_cons] at h
        rcases hstep with he | ⟨hne, he | he⟩
        · rw [he] at h
          rcases (ih m u i).2 h with h | ⟨rid, hmem, hr, hi⟩
          · exact Or.inl h
          · exact Or.inr ⟨rid, List.mem_cons_of_mem _ hmem, hr, hi⟩
        · rw [he] at h
          rcases (ih _ _ i).2 h with h | ⟨rid, hmem, hr, hi⟩
          · exact Or.inl h
          · exact Or.inr ⟨rid, List.mem_cons_of_mem _ hmem, hr, hi⟩
        · rw [he] at h
          rcases (ih _ _ i).2 h with h | ⟨rid, hmem, hr, hi⟩
          · rcases List.mem_append.mp h with h | h
            · exact Or.inl h
            · exact Or.inr ⟨rid₀, List.mem_cons_self _ _, hne, h⟩
          · exact Or.inr ⟨rid, List.mem_cons_of_mem _ hmem, hr, hi⟩

/-- Length bookkeeping for one loop iteration, when the key is empty or
present in both frames (as every common id is). -/
theorem commonStep_length (cur prev : CDf) (pk : String) (curKeys : List String)
    (acc : List Nat × List Nat) (rid : String)
    (h : rid = "" ∨ ((rowOf? cur pk rid).isSome ∧ (rowOf? prev pk rid).isSome)) :
    (commonStep cur prev pk curKeys acc rid).1.length
      + (commonStep cur prev pk curKeys acc rid).2.length
      = acc.1.length + acc.2.length
        + (if rid = "" then 0 else (maskIdx curKeys (fun v => v == rid)).length) := by
  by_cases h0 : rid = ""
  · simp [commonStep, h0]
  · rcases h with h | ⟨hc, hp⟩
    · exact absurd h h0
    · obtain ⟨rc, hrc⟩ := Option.isSome_iff_exists.mp hc
      obtain ⟨rp, hrp⟩ := Option.isSome_iff_exists.mp hp
      unfold commonStep
      rw [if_neg h0, if_neg h0, hrc, hrp]
      dsimp only
      by_cases hch : rowChanged cur prev pk rc rp = true
      · rw [if_pos hch]
        simp only [List.length_append]
        omega
      · rw [if_neg hch]
        simp only [List.length_append]
        omega

/-- Length bookkeeping for the whole loop: the two accumulated index lists
together grow by the row count of each processed non-empty key. -/
theorem commonFold_length (cur prev : CDf) (pk : String) (curKeys : List String) :
    ∀ (L : List String) (m u : List Nat),
      (∀ rid ∈ L, rid = "" ∨
          ((rowOf? cur pk rid).isSome ∧ (rowOf? prev pk rid).isSome)) →
      (L.foldl (commonStep cur prev pk curKeys) (m, u)).1.length
        + (L.foldl (commonStep cur prev pk curKeys) (m, u)).2.length
        = m.length + u.length
          + (L.map (fun rid =>
              if rid = "" then 0
              else (maskIdx curKeys (fun v => v == rid)).length)).sum := by
  intro L
  induction L with
  | nil =>
      intro m u _
      simp
  | cons rid₀ t ih =>
      intro m u h
      have hstep := commonStep_length cur prev pk curKeys (m, u) rid₀
        (h rid₀ (List.mem_cons_self _ _))
      rcases hq : commonStep cur prev pk curKeys (m, u) rid₀ with ⟨m', u'⟩
      rw [hq] at hstep
      have ht := ih m' u' (fun rid hr => h rid (List.mem_cons_of_mem _ hr))
      rw [List.foldl_cons, hq, List.map_cons, List.sum_cons]
      dsimp only at hstep
      omega

/-- The key column of a cleaned frame has one entry per row. -/
theorem keyVals_length (df : CDf) (pk : String) :
    (keyVals df pk).length = df.rows.length := by
  simp [keyVals]

/-- A value occurring in the key column is the key of some row, so the
first-row lookup succeeds. -/
theorem rowOf?_isSome_of_mem_keyVals {df : CDf} {pk rid : String}
    (h : rid ∈ keyVals df pk) : (rowOf? df pk rid).isSome := by
  rw [rowOf?, List.find?_isSome]
  obtain ⟨r, hr, he⟩ := List.mem_map.mp h
  exact ⟨r, hr, by simp [he]⟩

/-! Claim C2: identity-key resolution and append-only degradation. -/

/-- Current frame of the C2 counterexample: candidate key `InvID` has five
non-null values of which four are distinct — uniqueness ratio exactly 0.8. -/
def exC2cur : Df := ⟨["InvID", "Amt"],
  [[.str "A", .int 1], [.str "A", .int 2], [.str "B", .int 3],
   [.str "C", .int 4], [.str "D", .int 5]]⟩

/-- Previous frame of the C2 counterexample (also carries `InvID`). -/
def exC2prev : Df := ⟨["InvID", "Amt"], [[.str "A", .int 1]]⟩

/-- C2 counterexample.  `InvID` is present in both frames and its uniqueness
ratio in the current frame is exactly 0.8 (`4 * total = 5 * unique`), which
the claim's "at least 0.8" accepts — yet `determine_primary_key` selects no
key, because the code tests `ratio > 0.8` strictly.  (The resulting
append-only return also carries no degradation marker: it is the very value
`allAddedResult` produced on the no-snapshot path.) -/
theorem c2_counterexample :
    determine_primary_key exC2cur exC2prev "InvID" = Option.none ∧
    "InvID" ∈ exC2cur.cols ∧ "InvID" ∈ exC2prev.cols ∧
    0 < nonNullCount (exC2cur.column "InvID") ∧
    4 * nonNullCount (exC2cur.column "InvID")
      = 5 * nuniqueCol (exC2cur.column "InvID") :=
  ⟨by decide, by decide, by decide, by decide, by decide⟩

/-- C2 (amended).  `determine_primary_key` returns the first candidate that
is present in both frames with a positive non-null count and uniqueness
ratio strictly greater than 0.8; earlier candidates all fail the test.  When
no candidate qualifies (including any with ratio exactly 0.8) the
reconciliation degrades to append-only: every current record is returned as
`Added` with empty modified and deleted partitions — with no further
degradation flag in the result. -/
theorem c2_strict_uniqueness_threshold (df prev : Df) (pk : String) :
    (∀ k, determine_primary_key df prev pk = some k →
        pkQualifies df prev k = true ∧
        ∃ pre post, potentialKeys pk = pre ++ k :: post ∧
          ∀ j ∈ pre, pkQualifies df prev j = false) ∧
    (determine_primary_key df prev pk = Option.none →
        ∀ k ∈ potentialKeys pk, pkQualifies df prev k = false) ∧
    (df.isEmptyDf = false → prev.isEmptyDf = false →
        determine_primary_key df prev pk = Option.none →
        compare_with_snapshot (some df) (PrevOutcome.loaded prev) pk
          = allAddedResult df) := by
  refine ⟨?_, ?_, ?_⟩
  · intro k h
    obtain ⟨hq, pre, post, hsplit, hfail⟩ :=
      find?_some_split (pkQualifies df prev) (potentialKeys pk) k h
    exact ⟨hq, pre, post, hsplit, hfail⟩
  · intro h k hk
    simpa using List.find?_eq_none.mp h k hk
  · intro h1 h2 h3
    simp [compare_with_snapshot, h1, h2, h3]

/-- Current frame of the C2 witness (no candidate key column). -/
def wC2cur : Df := ⟨["X"], [[.str "a"]]⟩

/-- Previous frame of the C2 witness. -/
def wC2prev : Df := ⟨["Y"], [[.str "b"]]⟩

/-- Witness for C2: the amended theorem applied to concrete frames with no
resolvable key, yielding the append-only result. -/
theorem c2_witness :
    (wC2cur.isEmptyDf = false ∧ wC2prev.isEmptyDf = false ∧
      determine_primary_key wC2cur wC2prev "InvID" = Option.none) ∧
    compare_with_snapshot (some wC2cur) (PrevOutcome.loaded wC2prev) "InvID"
      = allAddedResult wC2cur :=
  ⟨⟨by decide, by decide, by decide⟩,
   (c2_strict_uniqueness_threshold wC2cur wC2prev "InvID").2.2
     (by decide) (by decide) (by decide)⟩

/-! Claim C3: partition completeness. -/

/-- The positions selected for one key value are counted by the key's
multiplicity in the key column. -/
theorem maskIdx_eq_count (K : List String) (rid : String) :
    (maskIdx K (fun v => v == rid)).length = K.count rid := by
  rw [maskIdx_length, List.count, List.countP_eq_length_filter]

/-- C3 (amended).  When the key column is present in both cleaned frames,
its current values are non-empty, and its values are pairwise distinct
within each frame, the partitions are complete on both sides:
`|Added| + |Modified| + |Unchanged|` equals the current row count and
`|Deleted| + |Modified| + |Unchanged|` equals the previous row count.
(The counterexample shows the previous-side identity fails as soon as a key
value repeats in the previous snapshot, because modified/unchanged count
current rows.) -/
theorem c3_partition_counts (cur prev : CDf) (pk : String)
    (hc : pk ∈ cur.cols) (hp : pk ∈ prev.cols)
    (hce : ∀ k ∈ keyVals cur pk, k ≠ "")
    (hcn : (keyVals cur pk).Nodup) (hpn : (keyVals prev pk).Nodup) :
    ((perform_detailed_comparison cur prev pk).added.length
        + (perform_detailed_comparison cur prev pk).modified.length
        + (perform_detailed_comparison cur prev pk).unchanged.length
      = cur.rows.length) ∧
    ((perform_detailed_comparison cur prev pk).deleted.length
        + (perform_detailed_comparison cur prev pk).modified.length
        + (perform_detailed_comparison cur prev pk).unchanged.length
      = prev.rows.length) := by
  have hdK : (keyVals cur pk).dedup = keyVals cur pk := List.dedup_eq_self.mpr hcn
  have hdP : (keyVals prev pk).dedup = keyVals prev pk := List.dedup_eq_self.mpr hpn
  rw [perform_detailed_comparison, if_pos (⟨hc, hp⟩ : pk ∈ cur.cols ∧ pk ∈ prev.cols)]
  dsimp only
  rw [hdK, hdP]
  set K := keyVals cur pk with hK
  set P := keyVals prev pk with hP
  set A := K.filter (fun k => decide (k ∉ P)) with hA
  set DD := P.filter (fun k => decide (k ∉ K)) with hDD
  set C := K.filter (fun k => decide (k ∈ P)) with hC
  -- the added indices count the current rows whose key is in no previous row
  have hAdd : (maskIdx K (fun k => decide (k ∈ A))).length = A.length := by
    rw [maskIdx_length]
    have : K.filter (fun k => decide (k ∈ A)) = A := by
      rw [hA]
      apply List.filter_congr
      intro x hx
      have : (x ∈ K.filter (fun k => decide (k ∉ P))) ↔ (x ∉ P) := by
        simp [List.mem_filter, hx]
      exact decide_eq_decide.mpr this
    rw [this]
  -- the deleted indices count the previous rows whose key is in no current row
  have hDel : (maskIdx P (fun k => decide (k ∈ DD))).length = DD.length := by
    rw [maskIdx_length]
    have : P.filter (fun k => decide (k ∈ DD)) = DD := by
      rw [hDD]
      apply List.filter_congr
      intro x hx
      have : (x ∈ P.filter (fun k => decide (k ∉ K))) ↔ (x ∉ K) := by
        simp [List.mem_filter, hx]
      exact decide_eq_decide.mpr this
    rw [this]
  -- the loop contributes exactly one current row per common key
  have hFold : ((C.foldl (commonStep cur prev pk K) ([], [])).1.length
      + (C.foldl (commonStep cur prev pk K) ([], [])).2.length) = C.length := by
    have hhyp : ∀ rid ∈ C, rid = "" ∨
        ((rowOf? cur pk rid).isSome ∧ (rowOf? prev pk rid).isSome) := by
      intro rid hrid
      rw [hC, List.mem_filter] at hrid
      refine Or.inr ⟨rowOf?_isSome_of_mem_keyVals (hK ▸ hrid.1), ?_⟩
      exact rowOf?_isSome_of_mem_keyVals (hP ▸ (of_decide_eq_true hrid.2))
    have := commonFold_length cur prev pk K C [] [] hhyp
    rw [this]
    have hone : ∀ rid ∈ C, (if rid = "" then 0
        else (maskIdx K (fun v => v == rid)).length) = 1 := by
      intro rid hrid
      rw [hC, List.mem_filter] at hrid
      have hne : rid ≠ "" := hce rid (hK ▸ hrid.1)
      rw [if_neg hne, maskIdx_eq_count]
      exact List.count_eq_one_of_mem hcn (hK ▸ hrid.1)
    rw [List.map_congr_left hone]
    simp [List.map_const']
  -- complements inside one frame
  have hsplitK : A.length + C.length = K.length := by
    have hq : C = K.filter (fun a => !(fun k => decide (k ∉ P)) a) := by
      rw [hC]
      apply List.filter_congr
      intro x _
      simp [decide_not]
    rw [hA, hq]
    exact length_filter_add_length_filter_not K _
  have hsplitP : DD.length + (P.filter (fun a => decide (a ∈ K))).length
      = P.length := by
    have hq : (P.filter (fun a => decide (a ∈ K)))
        = P.filter (fun a => !(fun k => decide (k ∉ K)) a) := by
      apply List.filter_congr
      intro x _
      simp [decide_not]
    rw [hDD, hq]
    exact length_filter_add_length_filter_not P _
  -- the two intersections have equal size
  have hcomm : C.length = (P.filter (fun a => decide (a ∈ K))).length := by
    rw [hC]
    exact length_filter_mem_comm hcn hpn
  have hKlen : K.length = cur.rows.length := keyVals_length cur pk
  have hPlen : P.length = prev.rows.length := keyVals_length prev pk
  constructor
  · rw [hAdd]
    omega
  · rw [hDel]
    omega

/-- Current frame of the C3 counterexample: one record with key `A`. -/
def exC3cur : Df := ⟨["InvID", "Amt"], [[.str "A", .str "1"]]⟩

/-- Previous frame of the C3 counterexample: the key `A` occurs twice. -/
def exC3prev : Df :=
  ⟨["InvID", "Amt"], [[.str "A", .str "1"], [.str "A", .str "1"]]⟩

/-- Count of records whose cleaned identity-key value is non-empty — the
claim's "records with resolvable identity" (stated in the spec's words, for
comparison with the code). -/
def resolvableCount (df : Df) (pk : String) : Nat :=
  (keyVals (cleanDf df) pk).countP (fun k => decide (k ≠ ""))

/-- C3 counterexample.  Reconciling one current record (key `A`) against a
previous snapshot holding two records with key `A` selects `InvID` as key
(its current uniqueness ratio is 1), and yields
`|Deleted| + |Modified| + |Unchanged| = 1`, while the previous snapshot has
2 records with resolvable identity: the modified/unchanged partitions count
current rows, so duplicate previous keys break the claimed identity. -/
theorem c3_counterexample :
    ((compare_with_snapshot (some exC3cur) (PrevOutcome.loaded exC3prev)
        "InvID").statsDeleted
      + (compare_with_snapshot (some exC3cur) (PrevOutcome.loaded exC3prev)
        "InvID").statsModified
      + (compare_with_snapshot (some exC3cur) (PrevOutcome.loaded exC3prev)
        "InvID").statsUnchanged = 1) ∧
    resolvableCount exC3prev "InvID" = 2 :=
  ⟨by decide, by decide⟩

/-- Current frame of the C3 witness. -/
def wC3cur : Df :=
  ⟨["InvID", "Amt"], [[.str "A", .str "1"], [.str "B", .str "2"]]⟩

/-- Previous frame of the C3 witness. -/
def wC3prev : Df :=
  ⟨["InvID", "Amt"], [[.str "A", .str "1"], [.str "C", .str "3"]]⟩

/-- Witness for C3: the amended theorem applied to concrete cleaned frames
with unique, non-empty keys. -/
theorem c3_witness :
    (("InvID" ∈ (cleanDf wC3cur).cols ∧ "InvID" ∈ (cleanDf wC3prev).cols ∧
       (∀ k ∈ keyVals (cleanDf wC3cur) "InvID", k ≠ "") ∧
       (keyVals (cleanDf wC3cur) "InvID").Nodup ∧
       (keyVals (cleanDf wC3prev) "InvID").Nodup) ∧
     ((perform_detailed_comparison (cleanDf wC3cur) (cleanDf wC3prev)
          "InvID").added.length
        + (perform_detailed_comparison (cleanDf wC3cur) (cleanDf wC3prev)
          "InvID").modified.length
        + (perform_detailed_comparison (cleanDf wC3cur) (cleanDf wC3prev)
          "InvID").unchanged.length
        = (cleanDf wC3cur).rows.length) ∧
     ((perform_detailed_comparison (cleanDf wC3cur) (cleanDf wC3prev)
          "InvID").deleted.length
        + (perform_detailed_comparison (cleanDf wC3cur) (cleanDf wC3prev)
          "InvID").modified.length
        + (perform_detailed_comparison (cleanDf wC3cur) (cleanDf wC3prev)
          "InvID").unchanged.length
        = (cleanDf wC3prev).rows.length)) :=
  ⟨⟨by decide, by decide, by decide, by decide, by decide⟩,
   c3_partition_counts (cleanDf wC3cur) (cleanDf wC3prev) "InvID"
     (by decide) (by decide) (by decide) (by decide) (by decide)⟩

/-! Claim C4: records with null/empty identity keys. -/

/-- C4 (amended).  A current record whose cleaned key value is empty (null
keys clean to the empty string) is classified `Added` exactly when no
previous record's cleaned key is empty; when the previous snapshot also
holds an empty-keyed record, the current record lands in no partition at
all — the comparison loop skips the empty id, and no full-row hash
fallback exists anywhere in `perform_detailed_comparison`. -/
theorem c4_empty_key_no_fallback (cur prev : CDf) (pk : String) (i : Nat)
    (hc : pk ∈ cur.cols) (hp : pk ∈ prev.cols)
    (hi : i < cur.rows.length)
    (hkey : (keyVals cur pk).getD i "" = "") :
    (("" ∉ keyVals prev pk) →
        i ∈ (perform_detailed_comparison cur prev pk).added) ∧
    (("" ∈ keyVals prev pk) →
        i ∉ (perform_detailed_comparison cur prev pk).added ∧
        i ∉ (perform_detailed_comparison cur prev pk).modified ∧
        i ∉ (perform_detailed_comparison cur prev pk).unchanged) := by
  rw [perform_detailed_comparison,
    if_pos (⟨hc, hp⟩ : pk ∈ cur.cols ∧ pk ∈ prev.cols)]
  dsimp only
  have hiK : i < (keyVals cur pk).length := by
    rw [keyVals_length]; exact hi
  have hmemK : "" ∈ keyVals cur pk := by
    have hg := List.getD_eq_getElem (keyVals cur pk) "" hiK
    rw [hkey] at hg
    rw [hg]
    exact List.getElem_mem _
  constructor
  · intro h0
    rw [maskIdx_mem]
    refine ⟨hiK, ?_⟩
    rw [hkey]
    apply decide_eq_true
    rw [List.mem_filter]
    refine ⟨List.mem_dedup.mpr hmemK, ?_⟩
    apply decide_eq_true
    intro hcontra
    exact h0 (List.mem_dedup.mp hcontra)
  · intro h0
    refine ⟨?_, ?_, ?_⟩
    · intro hmem
      rw [maskIdx_mem] at hmem
      have := of_decide_eq_true hmem.2
      rw [hkey] at this
      rw [List.mem_filter] at this
      exact (of_decide_eq_true this.2) (List.mem_dedup.mpr h0)
    · intro hmem
      rcases (commonFold_mem cur prev pk (keyVals cur pk) _ [] [] i).1 hmem with
        h | ⟨rid, _, hne, hmask⟩
      · cases h
      · rw [maskIdx_mem] at hmask
        have hg : (keyVals cur pk).getD i "" = rid := beq_iff_eq.mp hmask.2
        rw [hkey] at hg
        exact hne hg.symm
    · intro hmem
      rcases (commonFold_mem cur prev pk (keyVals cur pk) _ [] [] i).2 hmem with
        h | ⟨rid, _, hne, hmask⟩
      · cases h
      · rw [maskIdx_mem] at hmask
        have hg : (keyVals cur pk).getD i "" = rid := beq_iff_eq.mp hmask.2
        rw [hkey] at hg
        exact hne hg.symm

/-- Current frame of the C4 counterexample: the first record's key is null. -/
def exC4cur : Df := ⟨["InvID", "Amt"], [[.none, .str "x"], [.str "K", .str "y"]]⟩

/-- Previous frame of the C4 counterexample: its first record's key is the
empty string, so the cleaned key sets share the empty id. -/
def exC4prev : Df := ⟨["InvID", "Amt"], [[.str "", .str "z"], [.str "K", .str "y"]]⟩

/-- C4 counterexample.  The null-keyed current record (its full row differs
from every previous row, so no hash match exists for it) is not classified
`Added` — the comparison yields statistics 0 added / 0 modified / 1
unchanged over 2 current records, i.e. the record vanishes from all
partitions instead of falling back to a hash match. -/
theorem c4_counterexample :
    cleanCell PyVal.none = "" ∧
    (compare_with_snapshot (some exC4cur) (PrevOutcome.loaded exC4prev)
        "InvID").statsAdded = 0 ∧
    (compare_with_snapshot (some exC4cur) (PrevOutcome.loaded exC4prev)
        "InvID").statsModified = 0 ∧
    (compare_with_snapshot (some exC4cur) (PrevOutcome.loaded exC4prev)
        "InvID").statsUnchanged = 1 ∧
    exC4cur.rows.length = 2 :=
  ⟨by decide, by decide, by decide, by decide, by decide⟩

/-- Current frame of the C4 witness: one empty-keyed record. -/
def wC4cur : Df := ⟨["InvID", "Amt"], [[.str "", .str "x"]]⟩

/-- Previous frame of the C4 witness: no empty-keyed record. -/
def wC4prev : Df := ⟨["InvID", "Amt"], [[.str "K", .str "y"]]⟩

/-- Witness for C4: the amended theorem applied at a concrete empty-keyed
record with no empty key in the previous frame — the record is added. -/
theorem c4_witness :
    ("InvID" ∈ (cleanDf wC4cur).cols ∧ "InvID" ∈ (cleanDf wC4prev).cols ∧
      0 < (cleanDf wC4cur).rows.length ∧
      (keyVals (cleanDf wC4cur) "InvID").getD 0 "" = "" ∧
      "" ∉ keyVals (cleanDf wC4prev) "InvID") ∧
    0 ∈ (perform_detailed_comparison (cleanDf wC4cur) (cleanDf wC4prev)
        "InvID").added :=
  ⟨⟨by decide, by decide, by decide, by decide, by decide⟩,
   (c4_empty_key_no_fallback (cleanDf wC4cur) (cleanDf wC4prev) "InvID" 0
     (by decide) (by decide) (by decide) (by decide)).1 (by decide)⟩

/-! Claim C10: internal consistency of the returned statistics. -/

/-- Every added index is a valid current-row position. -/
theorem pdc_added_lt (cur prev : CDf) (pk : String) :
    ∀ i ∈ (perform_detailed_comparison cur prev pk).added, i < cur.rows.length := by
  intro i hmem
  rw [perform_detailed_comparison] at hmem
  by_cases h : pk ∈ cur.cols ∧ pk ∈ prev.cols
  · rw [if_pos h] at hmem
    dsimp only at hmem
    rw [maskIdx_mem] at hmem
    rw [← keyVals_length cur pk]
    exact hmem.1
  · rw [if_neg h] at hmem
    exact List.mem_range.mp hmem

/-- Every deleted index is a valid previous-row position. -/
theorem pdc_deleted_lt (cur prev : CDf) (pk : String) :
    ∀ i ∈ (perform_detailed_comparison cur prev pk).deleted, i < prev.rows.length := by
  intro i hmem
  rw [perform_detailed_comparison] at hmem
  by_cases h : pk ∈ cur.cols ∧ pk ∈ prev.cols
  · rw [if_pos h] at hmem
    dsimp only at hmem
    rw [maskIdx_mem] at hmem
    rw [← keyVals_length prev pk]
    exact hmem.1
  · rw [if_neg h] at hmem
    cases hmem

/-- Every modified index is a valid current-row position. -/
theorem pdc_modified_lt (cur prev : CDf) (pk : String) :
    ∀ i ∈ (perform_detailed_comparison cur prev pk).modified, i < cur.rows.length := by
  intro i hmem
  rw [perform_detailed_comparison] at hmem
  by_cases h : pk ∈ cur.cols ∧ pk ∈ prev.cols
  · rw [if_pos h] at hmem
    dsimp only at hmem
    rcases (commonFold_mem cur prev pk (keyVals cur pk) _ [] [] i).1 hmem with
      hf | ⟨rid, _, _, hmask⟩
    · cases hf
    · rw [maskIdx_mem] at hmask
      rw [← keyVals_length cur pk]
      exact hmask.1
  · rw [if_neg h] at hmem
    cases hmem

/-- Every unchanged index is a valid current-row position. -/
theorem pdc_unchanged_lt (cur prev : CDf) (pk : String) :
    ∀ i ∈ (perform_detailed_comparison cur prev pk).unchanged, i < cur.rows.length := by
  intro i hmem
  rw [perform_detailed_comparison] at hmem
  by_cases h : pk ∈ cur.cols ∧ pk ∈ prev.cols
  · rw [if_pos h] at hmem
    dsimp only at hmem
    rcases (commonFold_mem cur prev pk (keyVals cur pk) _ [] [] i).2 hmem with
      hf | ⟨rid, _, _, hmask⟩
    · cases hf
    · rw [maskIdx_mem] at hmask
      rw [← keyVals_length cur pk]
      exact hmask.1
  · rw [if_neg h] at hmem
    cases hmem

/-- The consistency property of one comparison result: each reported
statistic equals the row count of the corresponding frame. -/
def statsMatch (r : CompareResult) : Prop :=
  r.statsAdded = r.addedDf.rows.length ∧
  r.statsModified = r.modifiedDf.rows.length ∧
  r.statsDeleted = r.deletedDf.rows.length

/-- `map_comparison_to_original` is consistent whenever its index lists are
in range of the frames they slice. -/
theorem statsMatch_map (cur prev : Df) (c : CompIdx)
    (ha : ∀ i ∈ c.added, i < cur.rows.length)
    (hm : ∀ i ∈ c.modified, i < cur.rows.length)
    (hd : ∀ i ∈ c.deleted, i < prev.rows.length) :
    statsMatch (map_comparison_to_original cur prev c) := by
  refine ⟨?_, ?_, ?_⟩
  · show c.added.length
      = (if c.added.isEmpty then emptyDf
         else ⟨cur.cols, selectRows cur.rows c.added⟩).rows.length
    cases he : c.added.isEmpty
    · rw [if_neg (by simp [he])]
      exact (selectRows_length c.added cur.rows ha).symm
    · rw [if_pos (by simp [he])]
      rw [List.isEmpty_iff.mp he]
      rfl
  · show c.modified.length
      = (if c.modified.isEmpty then emptyDf
         else ⟨cur.cols, selectRows cur.rows c.modified⟩).rows.length
    cases he : c.modified.isEmpty
    · rw [if_neg (by simp [he])]
      exact (selectRows_length c.modified cur.rows hm).symm
    · rw [if_pos (by simp [he])]
      rw [List.isEmpty_iff.mp he]
      rfl
  · show c.deleted.length
      = (if c.deleted.isEmpty then emptyDf
         else ⟨prev.cols, selectRows prev.rows c.deleted⟩).rows.length
    cases he : c.deleted.isEmpty
    · rw [if_neg (by simp [he])]
      exact (selectRows_length c.deleted prev.rows hd).symm
    · rw [if_pos (by simp [he])]
      rw [List.isEmpty_iff.mp he]
      rfl

/-- Cleaning and restricting a frame keeps its row count. -/
theorem cleanDf_restrict_length (df : Df) (cs : List String) :
    (cleanDf (df.restrict cs)).rows.length = df.rows.length := by
  simp [cleanDf, Df.restrict]

/-- C10 (confirmed).  On every return path of `compare_with_snapshot` — no
current frame, empty current frame, no previous snapshot, unreadable
snapshot, empty previous frame, no usable key, no common columns, and the
keyed comparison itself — each statistic equals the row count of the
partition frame it describes; the `except` return is likewise consistent
(the reachable error path starts past the empty-frame guard, so its frame is
non-empty there). -/
theorem c10_stats_consistent (dfOpt : Option Df) (prevOut : PrevOutcome)
    (pk : String) :
    statsMatch (compare_with_snapshot dfOpt prevOut pk) ∧
    statsMatch (errorPathResult Option.none) ∧
    (∀ df : Df, df.isEmptyDf = false → statsMatch (errorPathResult (some df))) := by
  refine ⟨?_, ⟨rfl, rfl, rfl⟩, ?_⟩
  · cases dfOpt with
    | none => exact ⟨rfl, rfl, rfl⟩
    | some df =>
        rw [compare_with_snapshot.eq_def]
        dsimp only
        cases hde : df.isEmptyDf with
        | true =>
            rw [if_pos rfl]
            exact ⟨rfl, rfl, rfl⟩
        | false =>
            rw [if_neg (by simp)]
            cases prevOut with
            | noSnapshot => exact ⟨rfl, rfl, rfl⟩
            | unreadable => exact ⟨rfl, rfl, rfl⟩
            | loaded prevDf =>
                dsimp only
                cases hpe : prevDf.isEmptyDf with
                | true =>
                    rw [if_pos rfl]
                    exact ⟨rfl, rfl, rfl⟩
                | false =>
                    rw [if_neg (by simp)]
                    cases hdk : determine_primary_key df prevDf pk with
                    | none => exact ⟨rfl, rfl, rfl⟩
                    | some key =>
                        dsimp only
                        cases hcc : (df.cols.filter
                            (fun c => decide (c ∈ prevDf.cols))).isEmpty with
                        | true =>
                            rw [if_pos rfl]
                            exact ⟨rfl, rfl, rfl⟩
                        | false =>
                            rw [if_neg (by simp)]
                            apply statsMatch_map
                            · intro i hi
                              have := pdc_added_lt _ _ key i hi
                              rwa [cleanDf_restrict_length] at this
                            · intro i hi
                              have := pdc_modified_lt _ _ key i hi
                              rwa [cleanDf_restrict_length] at this
                            · intro i hi
                              have := pdc_deleted_lt _ _ key i hi
                              rwa [cleanDf_restrict_length] at this
  · intro df hde
    refine ⟨?_, rfl, rfl⟩
    show df.rows.length = (if df.isEmptyDf then emptyDf else df).rows.length
    rw [hde]
    rw [if_neg (by simp)]

/-- A one-row frame used to witness the error-path consistency of C10. -/
def wC10df : Df := ⟨["A"], [[.str "v"]]⟩

/-- Witness for C10: the error-path conjunct applied at a concrete
non-empty frame. -/
theorem c10_witness :
    wC10df.isEmptyDf = false ∧ statsMatch (errorPathResult (some wC10df)) :=
  ⟨by decide,
   (c10_stats_consistent (some wC10df) PrevOutcome.noSnapshot "InvID").2.2
     wC10df (by decide)⟩

/-! Claim C5: `find_latest_snapshot` (snapshot_handler.py lines 146-179).
The directory listing is passed in as the list of file names. -/

/-- Whether a list of characters is a non-empty digit run. -/
def digitRun (l : List Char) : Bool :=
  decide (l ≠ []) && l.all Char.isDigit

/-- Split a character list on a separator character. -/
def splitOnChar (c : Char) : List Char → List (List Char)
  | [] => [[]]
  | x :: xs =>
      if x = c then [] :: splitOnChar c xs
      else
        match splitOnChar c xs with
        | [] => [[x]]
        | g :: gs => (x :: g) :: gs

/-- Numeric value of a digit run. -/
def parseNatDigits (l : List Char) : Nat :=
  l.foldl (fun acc c => acc * 10 + (c.toNat - 48)) 0

/-- Days per month in the proleptic Gregorian calendar. -/
def daysInMonth (y m : Nat) : Nat :=
  if m = 2 then (if (y % 4 = 0 ∧ y % 100 ≠ 0) ∨ y % 400 = 0 then 29 else 28)
  else if m = 4 ∨ m = 6 ∨ m = 9 ∨ m = 11 then 30 else 31

/-- Success of `datetime.strptime(s, "%Y-%m-%d")`: three dash-separated
digit runs (up to 4/2/2 digits — strptime accepts unpadded components), a
month 1-12 and a calendar-valid day. -/
def validDateStr (s : String) : Bool :=
  match splitOnChar '-' s.data with
  | [ys, ms, ds] =>
      digitRun ys && decide (ys.length ≤ 4) &&
      digitRun ms && decide (ms.length ≤ 2) &&
      digitRun ds && decide (ds.length ≤ 2) &&
      (let y := parseNatDigits ys
       let m := parseNatDigits ms
       let d := parseNatDigits ds
       decide (1 ≤ m) && decide (m ≤ 12) &&
       decide (1 ≤ d) && decide (d ≤ daysInMonth y m))
  | _ => false

/-- Python `s.startswith(pre)`. -/
def strStartsWith (s pre : String) : Bool := pre.data.isPrefixOf s.data

/-- Python `s.endswith(suf)`. -/
def strEndsWith (s suf : String) : Bool := suf.data.isSuffixOf s.data

/-- `file.replace("snapshot_", "").replace(".xlsx", "")` of
`find_latest_snapshot`. -/
def snapshotDatePart (file : String) : String :=
  pyReplace (pyReplace file "snapshot_" "") ".xlsx" ""

/-- The date a snapshot file name contributes: the name must carry the
`snapshot_` prefix and `.xlsx` suffix, and the remaining part must parse as
a `%Y-%m-%d` date. -/
def parseSnapshotDate (file : String) : Option String :=
  if strStartsWith file "snapshot_" && strEndsWith file ".xlsx" then
    (let dp := snapshotDatePart file
     if validDateStr dp then some dp else Option.none)
  else Option.none

/-- The `(date_part, file)` pairs accumulated by the listing loop of
`find_latest_snapshot`: validly named snapshot files whose date is not the
excluded one.  (The source checks the exclusion before the date format;
both are filters, so the order is immaterial.) -/
def snapshotCandidates (files : List String) (excludeDate : String) :
    List (String × String) :=
  files.filterMap (fun f =>
    match parseSnapshotDate f with
    | some dp => if dp = excludeDate then Option.none else some (dp, f)
    | Option.none => Option.none)

/-- Lexicographic strict order on character lists — Python's `<` on
strings, by which the snapshot date strings are sorted. -/
def lexLt : List Char → List Char → Bool
  | _, [] => false
  | [], _ :: _ => true
  | x :: xs, y :: ys =>
      if x.toNat < y.toNat then true
      else if y.toNat < x.toNat then false
      else lexLt xs ys

/-- Python `a < b` on strings. -/
def strLtB (a b : String) : Bool := lexLt a.data b.data

/-- `find_latest_snapshot` (snapshot_handler.py lines 146-179): sort the
candidates by date string descending (a stable sort, so the first-listed
entry wins ties) and return the first, i.e. the leftmost maximum. -/
def find_latest_snapshot (files : List String) (excludeDate : String) :
    Option String :=
  match snapshotCandidates files excludeDate with
  | [] => Option.none
  | c :: cs =>
      some ((cs.foldl (fun best x => if strLtB best.1 x.1 then x else best) c).2)

/-- `lexLt` on non-empty lists, unfolded to head and tail. -/
theorem lexLt_cons (x y : Char) (xs ys : List Char) :
    lexLt (x :: xs) (y :: ys) = true ↔
      (x.toNat < y.toNat ∨ (x.toNat = y.toNat ∧ lexLt xs ys = true)) := by
  rw [lexLt]
  by_cases h1 : x.toNat < y.toNat
  · rw [if_pos h1]
    exact iff_of_true rfl (Or.inl h1)
  · rw [if_neg h1]
    by_cases h2 : y.toNat < x.toNat
    · rw [if_pos h2]
      constructor
      · intro h; cases h
      · rintro (h | ⟨h, _⟩) <;> omega
    · rw [if_neg h2]
      have hxy : x.toNat = y.toNat := by omega
      simp [hxy]

/-- `lexLt` is irreflexive. -/
theorem lexLt_irrefl : ∀ l, lexLt l l = false := by
  intro l
  induction l with
  | nil => rfl
  | cons x xs ih =>
      rw [lexLt, if_neg (by omega), if_neg (by omega)]
      exact ih

/-- `lexLt` is transitive. -/
theorem lexLt_trans : ∀ a b c, lexLt a b = true → lexLt b c = true →
    lexLt a c = true := by
  intro a
  induction a with
  | nil =>
      intro b c hab hbc
      cases c with
      | nil =>
          cases b with
          | nil => cases hab
          | cons y ys => cases hbc
      | cons z zs => rfl
  | cons x xs ih =>
      intro b c hab hbc
      cases b with
      | nil => cases hab
      | cons y ys =>
          cases c with
          | nil => cases hbc
          | cons z zs =>
              rw [lexLt_cons] at hab hbc ⊢
              rcases hab with h | ⟨he, hr⟩ <;> rcases hbc with h2 | ⟨he2, hr2⟩
              · exact Or.inl (by omega)
              · exact Or.inl (by omega)
              · exact Or.inl (by omega)
              · exact Or.inr ⟨by omega, ih ys zs hr hr2⟩

/-- From `a < b` and `¬(c < b)` conclude `a < c` — that is, `a < b ≤ c`. -/
theorem lexLt_of_lt_of_not_lt : ∀ a b c, lexLt a b = true →
    lexLt c b = false → lexLt a c = true := by
  intro a
  induction a with
  | nil =>
      intro b c hab hcb
      cases c with
      | nil =>
          cases b with
          | nil => cases hab
          | cons y ys => simp [lexLt] at hcb
      | cons z zs => rfl
  | cons x xs ih =>
      intro b c hab hcb
      cases b with
      | nil => cases hab
      | cons y ys =>
          cases c with
          | nil => simp [lexLt] at hcb
          | cons z zs =>
              have hcb' : ¬(z.toNat < y.toNat
                  ∨ (z.toNat = y.toNat ∧ lexLt zs ys = true)) := by
                intro hcontra
                rw [← lexLt_cons z y zs ys] at hcontra
                rw [hcontra] at hcb
                cases hcb
              have hz1 : ¬ z.toNat < y.toNat := fun h => hcb' (Or.inl h)
              have hz2 : z.toNat = y.toNat → lexLt zs ys = false := by
                intro he
                cases hzy : lexLt zs ys with
                | false => rfl
                | true => exact absurd (Or.inr ⟨he, hzy⟩) hcb'
              rw [lexLt_cons] at hab ⊢
              rcases hab with h | ⟨he, hr⟩
              · exact Or.inl (by omega)
              · by_cases hez : z.toNat = y.toNat
                · exact Or.inr ⟨by omega, ih ys zs hr (hz2 hez)⟩
                · exact Or.inl (by omega)

/-- `strLtB` is irreflexive. -/
theorem strLtB_irrefl (a : String) : strLtB a a = false := lexLt_irrefl a.data

/-- `strLtB` is transitive. -/
theorem strLtB_trans {a b c : String} (h1 : strLtB a b = true)
    (h2 : strLtB b c = true) : strLtB a c = true :=
  lexLt_trans a.data b.data c.data h1 h2

/-- `a < b` and `¬(c < b)` give `a < c` on strings. -/
theorem strLtB_of_lt_of_not_lt {a b c : String} (h1 : strLtB a b = true)
    (h2 : strLtB c b = false) : strLtB a c = true :=
  lexLt_of_lt_of_not_lt a.data b.data c.data h1 h2

/-- The running best of the descending sort-and-take-first is one of the
candidates and is never beaten by the seed or by any processed candidate. -/
theorem foldl_best_spec :
    ∀ (cs : List (String × String)) (c : String × String),
      ((cs.foldl (fun best x => if strLtB best.1 x.1 then x else best) c) = c ∨
        (cs.foldl (fun best x => if strLtB best.1 x.1 then x else best) c) ∈ cs) ∧
      strLtB (cs.foldl (fun best x => if strLtB best.1 x.1 then x else best) c).1
        c.1 = false ∧
      ∀ y ∈ cs,
        strLtB (cs.foldl (fun best x => if strLtB best.1 x.1 then x else best) c).1
          y.1 = false := by
  intro cs
  induction cs with
  | nil =>
      intro c
      exact ⟨Or.inl rfl, strLtB_irrefl c.1, by intro y hy; cases hy⟩
  | cons x t ih =>
      intro c
      rw [List.foldl_cons]
      by_cases hcx : strLtB c.1 x.1 = true
      · rw [if_pos hcx]
        obtain ⟨hmem, hbest, hall⟩ := ih x
        refine ⟨?_, ?_, ?_⟩
        · rcases hmem with h | h
          · exact Or.inr (by rw [h]; exact List.mem_cons_self x t)
          · exact Or.inr (List.mem_cons_of_mem x h)
        · cases hrc : strLtB (t.foldl (fun best x => if strLtB best.1 x.1 then x else best) x).1 c.1 with
          | false => rfl
          | true => exact absurd (strLtB_trans hrc hcx) (by rw [hbest]; intro h; cases h)
        · intro y hy
          rcases List.mem_cons.mp hy with h | h
          · subst h
            exact hbest
          · exact hall y h
      · have hcx' : strLtB c.1 x.1 = false := by
          cases h : strLtB c.1 x.1
          · rfl
          · exact absurd h hcx
        rw [if_neg hcx]
        obtain ⟨hmem, hbest, hall⟩ := ih c
        refine ⟨?_, hbest, ?_⟩
        · rcases hmem with h | h
          · exact Or.inl h
          · exact Or.inr (List.mem_cons_of_mem x h)
        · intro y hy
          rcases List.mem_cons.mp hy with h | h
          · rw [h]
            cases hrx : strLtB (t.foldl (fun best x => if strLtB best.1 x.1 then x else best) c).1 x.1 with
            | false => rfl
            | true =>
                have := strLtB_of_lt_of_not_lt hrx hcx'
                rw [this] at hbest
                cases hbest
          · exact hall y h

/-- Membership in the candidate list: validly named files with a date other
than the excluded one. -/
theorem mem_snapshotCandidates (files : List String) (d : String)
    (p : String × String) :
    p ∈ snapshotCandidates files d ↔
      (p.2 ∈ files ∧ parseSnapshotDate p.2 = some p.1 ∧ p.1 ≠ d) := by
  rw [snapshotCandidates, List.mem_filterMap]
  constructor
  · rintro ⟨a, ha, hfa⟩
    cases hp : parseSnapshotDate a with
    | none => rw [hp] at hfa; cases hfa
    | some dp =>
        rw [hp] at hfa
        dsimp only at hfa
        by_cases hd : dp = d
        · rw [if_pos hd] at hfa; cases hfa
        · rw [if_neg hd] at hfa
          injection hfa with h
          rw [← h]
          exact ⟨ha, hp, hd⟩
  · rintro ⟨hmem, hparse, hne⟩
    refine ⟨p.2, hmem, ?_⟩
    rw [hparse]
    dsimp only
    rw [if_neg hne]

/-- The candidate list is empty exactly when every validly named snapshot
file carries the excluded date. -/
theorem snapshotCandidates_eq_nil (files : List String) (d : String) :
    snapshotCandidates files d = [] ↔
      ∀ f ∈ files, ∀ dp, parseSnapshotDate f = some dp → dp = d := by
  rw [snapshotCandidates, List.filterMap_eq_nil_iff]
  constructor
  · intro h f hf dp hdp
    have := h f hf
    rw [hdp] at this
    dsimp only at this
    by_cases hd : dp = d
    · exact hd
    · rw [if_neg hd] at this
      cases this
  · intro h f hf
    cases hp : parseSnapshotDate f with
    | none => rfl
    | some dp =>
        dsimp only
        rw [if_pos (h f hf dp hp)]

/-- C5 (amended).  `find_latest_snapshot` returns no file exactly when every
validly named snapshot file in the directory is dated on the excluded date
`d` itself; otherwise it returns a validly named snapshot file whose date
differs from `d` and is maximal (in date-string order) among all such files.
Only snapshots dated exactly `d` are excluded — a snapshot dated after `d`
is returned, contrary to the claim's "strictly before". -/
theorem c5_latest_excludes_only_exact_date (files : List String) (d : String) :
    (find_latest_snapshot files d = Option.none ↔
      ∀ f ∈ files, ∀ dp, parseSnapshotDate f = some dp → dp = d) ∧
    (∀ f, find_latest_snapshot files d = some f →
      f ∈ files ∧ ∃ dp, parseSnapshotDate f = some dp ∧ dp ≠ d ∧
        ∀ g ∈ files, ∀ dq, parseSnapshotDate g = some dq → dq ≠ d →
          strLtB dp dq = false) := by
  constructor
  · rw [← snapshotCandidates_eq_nil files d]
    constructor
    · intro h
      cases hcand : snapshotCandidates files d with
      | nil => rfl
      | cons c cs =>
          rw [find_latest_snapshot.eq_def, hcand] at h
          cases h
    · intro h
      rw [find_latest_snapshot.eq_def, h]
  · intro f hf
    cases hcand : snapshotCandidates files d with
    | nil =>
        rw [find_latest_snapshot.eq_def, hcand] at hf
        cases hf
    | cons c cs =>
        rw [find_latest_snapshot.eq_def, hcand] at hf
        dsimp only at hf
        injection hf with hf
        obtain ⟨hmem, hbest, hall⟩ := foldl_best_spec cs c
        have hrmem : (cs.foldl (fun best x => if strLtB best.1 x.1 then x else best) c)
            ∈ snapshotCandidates files d := by
          rw [hcand]
          rcases hmem with h | h
          · rw [h]; exact List.mem_cons_self _ _
          · exact List.mem_cons_of_mem _ h
        obtain ⟨hinf, hparse, hne⟩ :=
          (mem_snapshotCandidates files d _).mp hrmem
        rw [hf] at hinf hparse
        refine ⟨hinf, _, hparse, hne, ?_⟩
        intro g hg dq hdq hdqd
        have hgc : (dq, g) ∈ snapshotCandidates files d :=
          (mem_snapshotCandidates files d (dq, g)).mpr ⟨hg, hdq, hdqd⟩
        rw [hcand] at hgc
        rcases List.mem_cons.mp hgc with h | h
        · have hq : c.1 = dq := by rw [← h]
          rw [hq] at hbest
          exact hbest
        · exact hall (dq, g) h

/-- C5 counterexample.  With the store holding only a snapshot dated
2025-07-22 and `find_latest_snapshot` called for 2025-07-21, the function
returns that snapshot — a snapshot dated strictly after the reference
date, which the claim says can never be returned.  (Only a snapshot dated
exactly 2025-07-21 would have been excluded.) -/
theorem c5_counterexample :
    find_latest_snapshot ["snapshot_2025-07-22.xlsx"] "2025-07-21"
      = some "snapshot_2025-07-22.xlsx" ∧
    parseSnapshotDate "snapshot_2025-07-22.xlsx" = some "2025-07-22" ∧
    strLtB "2025-07-21" "2025-07-22" = true :=
  ⟨by decide, by decide, by decide⟩

/-- Witness for C5: the amended theorem applied to a concrete store where
the latest non-excluded snapshot is dated 2025-07-20. -/
theorem c5_witness :
    find_latest_snapshot
        ["snapshot_2025-07-19.xlsx", "snapshot_2025-07-20.xlsx",
         "snapshot_2025-07-21.xlsx"] "2025-07-21"
      = some "snapshot_2025-07-20.xlsx" ∧
    ("snapshot_2025-07-20.xlsx"
        ∈ ["snapshot_2025-07-19.xlsx", "snapshot_2025-07-20.xlsx",
           "snapshot_2025-07-21.xlsx"] ∧
      ∃ dp, parseSnapshotDate "snapshot_2025-07-20.xlsx" = some dp ∧
        dp ≠ "2025-07-21" ∧
        ∀ g ∈ ["snapshot_2025-07-19.xlsx", "snapshot_2025-07-20.xlsx",
               "snapshot_2025-07-21.xlsx"],
          ∀ dq, parseSnapshotDate g = some dq → dq ≠ "2025-07-21" →
            strLtB dp dq = false) :=
  ⟨by decide,
   (c5_latest_excludes_only_exact_date
       ["snapshot_2025-07-19.xlsx", "snapshot_2025-07-20.xlsx",
        "snapshot_2025-07-21.xlsx"] "2025-07-21").2
     "snapshot_2025-07-20.xlsx" (by decide)⟩

/-! Claim C6: behaviour of a run on an empty or absent ledger extract
(run_validator.py `validate_invoices`, snapshot_handler.py `save_snapshot`). -/

/-- The normalization `match_fields` applies to the PDF text and to each
field value: upper-case, then delete spaces, dashes and underscores. -/
def normalizeMatch (s : String) : String :=
  pyReplace (pyReplace (pyReplace (pyUpper s) " " "") "-" "") "_" ""

/-- The skip test of `match_fields` (run_validator.py line 184): empty
value, or `nan`/`none` after lower-casing. -/
def fieldSkip (s : String) : Bool :=
  s == "" || pyLower s == "nan" || pyLower s == "none"

/-- Containment of a contiguous character pattern (Python `in` on
strings). -/
def listIsInfixOf (pat : List Char) : List Char → Bool
  | [] => pat.isEmpty
  | c :: cs => pat.isPrefixOf (c :: cs) || listIsInfixOf pat cs

/-- Match of one field value against the normalized text: `some true` for an
exact containment, `some false` for the 80%-prefix partial containment of a
value of length at least 4 (`int(len * 0.8)` truncates as `4 * len / 5`),
none otherwise. -/
def matchRowValue (tnorm v : String) : Option Bool :=
  if fieldSkip v then Option.none
  else
    let fn := normalizeMatch v
    if listIsInfixOf fn.data tnorm.data then some true
    else if decide (4 ≤ fn.data.length)
        && listIsInfixOf (fn.data.take ((4 * fn.data.length) / 5)) tnorm.data then
      some false
    else Option.none

/-- pandas `row.get(col, default)` against a frame's columns. -/
def rowGetStr (df : Df) (row : List PyVal) (c : String) (d : PyVal) : PyVal :=
  match df.cols.findIdx? (fun x => x == c) with
  | some i => row.getD i PyVal.none
  | Option.none => d

/-- `match_fields` (run_validator.py lines 158-209): with text and a
non-empty frame, scan the strategy columns in order and within each scan the
rows; return the first exact (`true`) or partial (`false`) hit with its row.
An empty text or an empty frame yields no match. -/
def match_fields (text : String) (df : Df) : Option (Bool × List PyVal) :=
  if text = "" ∨ df.isEmptyDf = true then Option.none
  else
    ["PurchaseInvNo", "VoucherNo", "InvID"].findSome? (fun col =>
      if col ∈ df.cols then
        df.rows.findSome? (fun row =>
          (matchRowValue (normalizeMatch text)
              (pyStrip (pdCellStr (df.cellAt row col)))).map
            (fun hit => (hit, row)))
      else Option.none)

/-- The result record `process_pdf_file` builds from a matched row
(run_validator.py lines 290-317), as the list of its values.  The
emoji-decorated status strings are abbreviated to plain markers; no claim
consults them. -/
def buildRecord (fileName nowIso : String) (df : Df) (exactHit : Bool)
    (row : List PyVal) : List PyVal :=
  [.str fileName,
   rowGetStr df row "VoucherNo" (.str ""), rowGetStr df row "Voucherdate" (.str ""),
   rowGetStr df row "PurchaseInvNo" (.str ""),
   rowGetStr df row "PurchaseInvDate" (.str ""),
   rowGetStr df row "PartyName" (.str ""), rowGetStr df row "GSTNO" (.str ""),
   rowGetStr df row "VATNumber" (.str ""), rowGetStr df row "TaxableValue" (.str ""),
   rowGetStr df row "Currency" (.str ""),
   rowGetStr df row "IGST/VATInputLedger" (.str ""),
   rowGetStr df row "IGST/VATInputAmt" (.str ""),
   rowGetStr df row "CGSTInputLedger" (.str ""),
   rowGetStr df row "CGSTInputAmt" (.str ""),
   rowGetStr df row "SGSTInputLedger" (.str ""),
   rowGetStr df row "SGSTInputAmt" (.str ""), rowGetStr df row "Total" (.str ""),
   rowGetStr df row "Inv Created By" (.str "Unknown"),
   rowGetStr df row "InvID" (.str ""), rowGetStr df row "Narration" (.str ""),
   .str (if exactHit then "VALID" else "PARTIAL"),
   .str (if exactHit then "MARK_OK" else "MARK_WARN"),
   .str "", .str "", .str "", .str nowIso]

/-- `process_pdf_file` (run_validator.py lines 275-326): empty extracted
text yields nothing; otherwise the record of the first matching row, if
any. -/
def process_pdf_file (fileName text nowIso : String) (df : Df) :
    Option (List PyVal) :=
  if text = "" then Option.none
  else (match_fields text df).map
    (fun hit => buildRecord fileName nowIso df hit.1 hit.2)

/-- The snapshot directory as a store from file name to sheet contents. -/
abbrev SheetStore := List (String × List (List PyVal))

/-- Writing one workbook (`df.to_excel(path)`): overwrite the file if it
exists, else create it. -/
def setFile (store : SheetStore) (name : String)
    (content : List (List PyVal)) : SheetStore :=
  if store.any (fun e => e.1 == name) then
    store.map (fun e => if e.1 == name then (name, content) else e)
  else store ++ [(name, content)]

/-- The file-store effect of `save_snapshot` (snapshot_handler.py lines
336-416): an empty frame is still written, as an empty workbook under the
timestamped name only (lines 368-372); otherwise both the timestamped file
and the date-named latest file are written.  The non-critical metadata JSON
sidecar and the 30-day cleanup sweep touch no snapshot workbook of the
current run and are not part of the store model. -/
def save_snapshot (store : SheetStore) (rows : List (List PyVal))
    (todayStr ts : String) : SheetStore :=
  let snapName := "snapshot_" ++ todayStr ++ "_" ++ ts ++ ".xlsx"
  let latestName := "snapshot_" ++ todayStr ++ ".xlsx"
  if rows.isEmpty then setFile store snapName []
  else setFile (setFile store snapName rows) latestName rows

/-- The snapshot-store effect of `validate_invoices` (run_validator.py
lines 382-539).  The ledger sheet is `Option.none` when absent or
unreadable (steps 1-2 return before any snapshot write); an empty list of
extracted PDF texts likewise aborts in step 3; otherwise steps 4-6 compute
the matched records (`results`) and call `save_snapshot` on them — also
when `results` is empty (step 5 merely logs "No validation results to
save"). -/
def validate_invoices_store (sheet : Option Df)
    (pdfs : List (String × String)) (nowIso : String) (store : SheetStore)
    (todayStr ts : String) : SheetStore :=
  match sheet with
  | Option.none => store
  | some df =>
      if pdfs.isEmpty then store
      else
        let results := pdfs.filterMap
          (fun nt => process_pdf_file nt.1 nt.2 nowIso df)
        save_snapshot store results todayStr ts

/-- C6 counterexample.  A present-but-empty ledger extract (zero rows) does
not hard-stop the run: with one PDF on hand, the run proceeds to step 6 and
`save_snapshot` writes an empty timestamped snapshot workbook into the
previously empty store — the claim says no snapshot is written and state is
left unchanged. -/
theorem c6_counterexample :
    validate_invoices_store (some (Df.mk ["InvID"] [])) [("a.pdf", "INVOICE")]
        "t0" [] "2025-07-21" "101010"
      = [("snapshot_2025-07-21_101010.xlsx", [])] ∧
    validate_invoices_store (some (Df.mk ["InvID"] [])) [("a.pdf", "INVOICE")]
        "t0" [] "2025-07-21" "101010" ≠ [] :=
  ⟨by decide, by decide⟩

/-- C6 (amended).  An absent (or unreadable) extract is a hard stop before
any snapshot write — the store is untouched.  An empty extract, however,
does not stop the run: it produces zero validation results, and
`save_snapshot` then writes exactly one empty workbook under the timestamped
name (prior files are preserved by `setFile`; the date-named latest file is
not updated on this path). -/
theorem c6_absent_stops_but_empty_writes (store : SheetStore)
    (pdfs : List (String × String)) (nowIso todayStr ts : String) :
    validate_invoices_store Option.none pdfs nowIso store todayStr ts = store ∧
    (∀ cols : List String, pdfs ≠ [] →
      validate_invoices_store (some (Df.mk cols [])) pdfs nowIso store todayStr ts
        = setFile store ("snapshot_" ++ todayStr ++ "_" ++ ts ++ ".xlsx") []) := by
  constructor
  · rfl
  · intro cols hp
    have hres : pdfs.filterMap
        (fun nt => process_pdf_file nt.1 nt.2 nowIso (Df.mk cols [])) = [] := by
      rw [List.filterMap_eq_nil_iff]
      intro a _
      rw [process_pdf_file]
      by_cases ht : a.2 = ""
      · rw [if_pos ht]
      · rw [if_neg ht]
        have hmf : match_fields a.2 (Df.mk cols []) = Option.none := by
          simp [match_fields, Df.isEmptyDf]
        rw [hmf]
        rfl
    rw [validate_invoices_store.eq_def]
    dsimp only
    rw [if_neg (fun hcontra => hp (List.isEmpty_iff.mp hcontra))]
    rw [hres]
    rfl

/-- A store with one pre-existing snapshot, used to witness C6. -/
def wC6store : SheetStore := [("snapshot_2025-07-20.xlsx", [[.str "r"]])]

/-- Witness for C6: the amended theorem applied at a concrete store — the
absent extract leaves it unchanged, the empty extract adds exactly one empty
timestamped workbook. -/
theorem c6_witness :
    ([("x.pdf", "TXT")] ≠ ([] : List (String × String))) ∧
    validate_invoices_store Option.none [("x.pdf", "TXT")] "t0" wC6store
        "2025-07-22" "090000" = wC6store ∧
    validate_invoices_store (some (Df.mk ["InvID"] [])) [("x.pdf", "TXT")]
        "t0" wC6store "2025-07-22" "090000"
      = setFile wC6store "snapshot_2025-07-22_090000.xlsx" [] :=
  ⟨by decide,
   (c6_absent_stops_but_empty_writes wC6store [("x.pdf", "TXT")] "t0"
       "2025-07-22" "090000").1,
   (c6_absent_stops_but_empty_writes wC6store [("x.pdf", "TXT")] "t0"
       "2025-07-22" "090000").2 ["InvID"] (by decide)⟩

/-! Claim C7: `record_run_window` (invoice_tracker.py lines 223-280) and the
`run_windows` table created by `create_tables` (lines 124-140) with
`UNIQUE(start_date, end_date, run_date)`. -/

/-- A row of the `run_windows` table (without the autoincrement id). -/
structure RunWindowRow where
  start_date : String
  end_date : String
  run_date : String
  run_type : String
  cumulative_start : String
  cumulative_end : String
  total_days_validated : Nat
  archived : Bool
  created_at : String
deriving DecidableEq

/-- A row of the legacy `run_log` table (no uniqueness constraint). -/
structure RunLogRow where
  start_date : String
  end_date : String
  run_date : String
  run_timestamp : String
  run_type : String
  cumulative_start : String
  cumulative_end : String
  total_days_validated : Nat
  archived : Bool
  created_at : String
deriving DecidableEq

/-- The two run-tracking tables. -/
structure TrackerDb where
  run_log : List RunLogRow
  run_windows : List RunWindowRow
deriving DecidableEq

/-- The state `create_tables` leaves a fresh database in. -/
def emptyTrackerDb : TrackerDb := ⟨[], []⟩

/-- The arguments of one `record_run_window` call, with the wall-clock
values (`datetime.now()`) captured at call time and the kwargs defaults
already resolved by the caller. -/
structure RunWindowArgs where
  start_date : String
  end_date : String
  run_type : String
  cumulative_start : String
  cumulative_end : String
  total_days_validated : Nat
  current_run_date : String
  current_timestamp : String
  created_at : String

/-- Match on the composite key `(start_date, end_date, run_date)` of the
`run_windows` UNIQUE constraint. -/
def rwKeyMatches (r : RunWindowRow) (s e d : String) : Bool :=
  r.start_date == s && r.end_date == e && r.run_date == d

/-- `record_run_window` (invoice_tracker.py lines 223-280): a plain INSERT
into `run_log`, and an `INSERT OR REPLACE` into `run_windows` — SQLite
deletes the rows conflicting on the UNIQUE key and appends the new row. -/
def record_run_window (db : TrackerDb) (a : RunWindowArgs) : TrackerDb :=
  let logRow : RunLogRow :=
    ⟨a.start_date, a.end_date, a.current_run_date, a.current_timestamp,
     a.run_type, a.cumulative_start, a.cumulative_end,
     a.total_days_validated, false, a.created_at⟩
  let rwRow : RunWindowRow :=
    ⟨a.start_date, a.end_date, a.current_run_date, a.run_type,
     a.cumulative_start, a.cumulative_end, a.total_days_validated,
     false, a.created_at⟩
  ⟨db.run_log ++ [logRow],
   (db.run_windows.filter
       (fun r => !(rwKeyMatches r a.start_date a.end_date a.current_run_date)))
     ++ [rwRow]⟩

/-- After an upsert, the replaced key is held by exactly the new row. -/
theorem record_run_window_key_count (db : TrackerDb) (a : RunWindowArgs) :
    ((record_run_window db a).run_windows.countP
      (fun r => rwKeyMatches r a.start_date a.end_date a.current_run_date)) = 1 := by
  rw [record_run_window]
  dsimp only
  rw [List.countP_append]
  have h0 : ((db.run_windows.filter
      (fun r => !(rwKeyMatches r a.start_date a.end_date a.current_run_date))).countP
      (fun r => rwKeyMatches r a.start_date a.end_date a.current_run_date)) = 0 := by
    rw [List.countP_eq_zero]
    intro r hr
    have := List.of_mem_filter hr
    simp only [Bool.not_eq_true'] at this
    simp [this]
  rw [h0]
  simp [rwKeyMatches, List.countP_cons]

/-- C7 (confirmed).  Starting from the freshly created tables, any sequence
of `record_run_window` calls leaves at most one `run_windows` row per
composite key `(start_date, end_date, run_date)` — a re-run for the same day
upserts the existing row instead of duplicating it, and the upserted key is
then held by exactly one row. -/
theorem c7_run_window_upsert_idempotent :
    (∀ (ops : List RunWindowArgs) (s e d : String),
      ((ops.foldl record_run_window emptyTrackerDb).run_windows.countP
        (fun r => rwKeyMatches r s e d)) ≤ 1) ∧
    (∀ (db : TrackerDb) (a : RunWindowArgs),
      ((record_run_window db a).run_windows.countP
        (fun r => rwKeyMatches r a.start_date a.end_date a.current_run_date)) = 1) := by
  constructor
  · intro ops s e d
    have hstep : ∀ (db : TrackerDb) (a : RunWindowArgs),
        (db.run_windows.countP (fun r => rwKeyMatches r s e d)) ≤ 1 →
        ((record_run_window db a).run_windows.countP
          (fun r => rwKeyMatches r s e d)) ≤ 1 := by
      intro db a h
      rw [record_run_window]
      dsimp only
      rw [List.countP_append]
      by_cases hk : s = a.start_date ∧ e = a.end_date ∧ d = a.current_run_date
      · obtain ⟨hs, he, hd⟩ := hk
        have h0 : ((db.run_windows.filter
            (fun r => !(rwKeyMatches r a.start_date a.end_date
              a.current_run_date))).countP
            (fun r => rwKeyMatches r s e d)) = 0 := by
          rw [List.countP_eq_zero]
          intro r hr
          have := List.of_mem_filter hr
          simp only [Bool.not_eq_true'] at this
          rw [hs, he, hd]
          simp [this]
        rw [h0, hs, he, hd]
        simp [rwKeyMatches, List.countP_cons]
      · have h1 : ((db.run_windows.filter
            (fun r => !(rwKeyMatches r a.start_date a.end_date
              a.current_run_date))).countP
            (fun r => rwKeyMatches r s e d)) ≤ 1 :=
          le_trans (List.Sublist.countP_le _ (List.filter_sublist _)) h
        have h2 : (List.countP (fun r => rwKeyMatches r s e d)
            [(⟨a.start_date, a.end_date, a.current_run_date, a.run_type,
              a.cumulative_start, a.cumulative_end, a.total_days_validated,
              false, a.created_at⟩ : RunWindowRow)]) = 0 := by
          rw [List.countP_eq_zero]
          intro r hr
          rw [List.mem_singleton] at hr
          rw [hr]
          simp only [rwKeyMatches]
          simp only [Bool.and_eq_true, beq_iff_eq]
          rintro ⟨⟨h1, h2⟩, h3⟩
          exact hk ⟨h1.symm, h2.symm, h3.symm⟩
        omega
    have : ∀ (ops : List RunWindowArgs) (db : TrackerDb),
        (db.run_windows.countP (fun r => rwKeyMatches r s e d)) ≤ 1 →
        ((ops.foldl record_run_window db).run_windows.countP
          (fun r => rwKeyMatches r s e d)) ≤ 1 := by
      intro ops
      induction ops with
      | nil => intro db h; exact h
      | cons a t ih =>
          intro db h
          rw [List.foldl_cons]
          exact ih _ (hstep db a h)
    exact this ops emptyTrackerDb (by simp [emptyTrackerDb])
  · exact record_run_window_key_count

/-! Claim C8: `save_invoice_snapshot` (invoice_tracker.py lines 166-220)
against the `invoice_snapshots` table of `create_tables` (lines 82-104) —
a table declared **without** any UNIQUE constraint. -/

/-- A row of the `invoice_snapshots` table (without the autoincrement id). -/
structure InvoiceSnapRow where
  invoice_no : String
  vendor_name : String
  invoice_date : String
  gstin : String
  pan : String
  hsn_code : String
  taxable_value : Int
  total_amount : Int
  hash : String
  run_date : String
  run_type : String
  batch_start : String
  batch_end : String
  cumulative_start : String
  cumulative_end : String
  archived : Bool
  created_at : String
deriving DecidableEq

/-- Python `float(v)` on the integral data this pipeline carries: numbers
pass through, numeric strings parse, `None` raises (yielding no value). -/
def pyFloat? : PyVal → Option Int
  | .int n => some n
  | .str s => s.toInt?
  | .none => Option.none

/-- One row built inside the `save_invoice_snapshot` loop (lines 189-213):
aliased column lookups, the content hash, and the run-window metadata.
`Option.none` when a `float(...)` conversion raises. -/
def buildSnapRow (inv : Invoice) (run_date run_type batch_start batch_end
    cumulative_start cumulative_end created_at : String) :
    Option InvoiceSnapRow :=
  match pyFloat? (inv.get "Amount" (inv.get "taxable_value" (.int 0))),
      pyFloat? (inv.get "Amount" (inv.get "total_amount" (.int 0))) with
  | some tv, some ta =>
      some ⟨pyStr (inv.get "Invoice_Number" (inv.get "invoice_no" (.str ""))),
        pyStr (inv.get "Vendor_Name" (inv.get "vendor_name" (.str ""))),
        pyStr (inv.get "Invoice_Date" (inv.get "invoice_date" (.str ""))),
        pyStr (inv.get "GST_Number" (inv.get "gstin" (.str ""))),
        pyStr (inv.get "pan" (.str "")),
        pyStr (inv.get "hsn_code" (.str "")),
        tv, ta,
        calculate_invoice_hash inv,
        run_date, run_type, batch_start, batch_end,
        cumulative_start, cumulative_end, false, created_at⟩
  | _, _ => Option.none

/-- `save_invoice_snapshot` on the `invoice_snapshots` table.  The SQL says
`INSERT OR REPLACE`, but the table declares no UNIQUE constraint, so no
conflict can ever arise and every statement is a plain INSERT appended to
the table.  An exception inside the loop (a failing `float(...)`) is caught
before `commit`, leaving the table unchanged. -/
def save_invoice_snapshot (tbl : List InvoiceSnapRow) (invs : List Invoice)
    (run_date run_type batch_start batch_end cumulative_start cumulative_end
      created_at : String) : List InvoiceSnapRow :=
  match invs.mapM (fun inv => buildSnapRow inv run_date run_type batch_start
      batch_end cumulative_start cumulative_end created_at) with
  | some rows => tbl ++ rows
  | Option.none => tbl

/-- The invoice of the C8 failing input. -/
def exC8inv : Invoice :=
  [("invoice_no", .str "INV1"), ("vendor_name", .str "V"),
   ("taxable_value", .int 100), ("total_amount", .int 100)]

/-- C8 (code bug): re-running `save_invoice_snapshot` for the same
`run_date` and the same single invoice leaves TWO rows for that run date —
the write appends duplicates instead of replacing the snapshot, because
`INSERT OR REPLACE` on a table with no UNIQUE constraint never replaces. -/
theorem c8_rerun_duplicates_rows :
    ((save_invoice_snapshot
        (save_invoice_snapshot [] [exC8inv] "2025-07-21" "standard"
          "2025-07-21" "2025-07-21" "2025-07-21" "2025-07-21" "t0")
        [exC8inv] "2025-07-21" "standard"
          "2025-07-21" "2025-07-21" "2025-07-21" "2025-07-21" "t0").countP
      (fun r => r.run_date == "2025-07-21")) = 2 := by
  rfl

/-! Claim C9: the run-cadence decision.  scheduler.py line 147 registers
`schedule.every(4).days.at("18:00")`; the schedule library fires a job when
the clock reaches `next_run`, which it sets one full period after the
previous in-process run — or one full period after registration when the job
has never run.  Nothing in the source consults the persisted last run date
(`invoice_tracker.get_last_run_date` has no caller).  Days are modelled as
day numbers; the fixed 18:00 time-of-day is dropped. -/

/-- The cadence configured at scheduler.py line 147. -/
def cadenceDays : Nat := 4

/-- The scheduler process state: the day it started and the day of the last
in-process run, if any. -/
structure SchedulerState where
  startDay : Nat
  lastJobDay : Option Nat

/-- Whether the registered job fires on `today`: the clock has reached
`next_run = (last in-process run, or process start) + 4 days`. -/
def shouldRunNow (st : SchedulerState) (today : Nat) : Bool :=
  match st.lastJobDay with
  | some d => decide (d + cadenceDays ≤ today)
  | Option.none => decide (st.startDay + cadenceDays ≤ today)

/-- Modelled from the spec: `shouldRunNow(today)` is true iff `lastRunDate`
is unset or `today - lastRunDate ≥ cadenceDays`, where `lastRunDate` is the
persisted last run date. -/
def shouldRunNowSpec (lastRunDate : Option Nat) (today : Nat) : Bool :=
  match lastRunDate with
  | Option.none => true
  | some d => decide (cadenceDays ≤ today - d)

/-- C9 counterexample.  A scheduler freshly started on day 100 with the
persisted `lastRunDate` unset (no validation has ever run): the claim says
`shouldRunNow` is true, but the process does not fire until day 104 — the
first run happens one full period after startup, and the persisted last-run
date is never read. -/
theorem c9_counterexample :
    shouldRunNow ⟨100, Option.none⟩ 100 = false ∧
    shouldRunNowSpec Option.none 100 = true :=
  ⟨by decide, by decide⟩

/-- C9 (amended).  The firing decision compares `today` against the last
in-process run (or the scheduler start when none exists), with the claimed
cadence arithmetic: with a last in-process run `d`, the job fires iff
`today - d ≥ 4` — so `d = today-3` gives false and `d = today-4` gives
true — and with none it fires iff `today - startDay ≥ 4`, regardless of the
persisted `lastRunDate`. -/
theorem c9_cadence_from_inprocess_run (st : SchedulerState) (today : Nat) :
    (∀ d, st.lastJobDay = some d →
      (shouldRunNow st today = true ↔ cadenceDays ≤ today - d)) ∧
    (st.lastJobDay = Option.none →
      (shouldRunNow st today = true ↔ cadenceDays ≤ today - st.startDay)) := by
  constructor
  · intro d hd
    simp only [shouldRunNow, hd, cadenceDays, decide_eq_true_eq]
    omega
  · intro hd
    simp only [shouldRunNow, hd, cadenceDays, decide_eq_true_eq]
    omega

/-- Witness for C9: the amended theorem applied at the claim's own scenario
(cadence 4): an in-process run 3 days ago yields false, 4 days ago yields
true. -/
theorem c9_witness :
    ((⟨0, some 7⟩ : SchedulerState).lastJobDay = some 7 ∧
      (shouldRunNow ⟨0, some 7⟩ 10 = true ↔ cadenceDays ≤ 10 - 7) ∧
      shouldRunNow ⟨0, some 7⟩ 10 = false) ∧
    ((⟨0, some 6⟩ : SchedulerState).lastJobDay = some 6 ∧
      (shouldRunNow ⟨0, some 6⟩ 10 = true ↔ cadenceDays ≤ 10 - 6) ∧
      shouldRunNow ⟨0, some 6⟩ 10 = true) :=
  ⟨⟨rfl, (c9_cadence_from_inprocess_run ⟨0, some 7⟩ 10).1 7 rfl, by decide⟩,
   ⟨rfl, (c9_cadence_from_inprocess_run ⟨0, some 6⟩ 10).1 6 rfl, by decide⟩⟩
